import Mathlib

/-!
Verification of the influxdb3 client core: shallow embedding of the value
model, the point entity and its line-protocol serializer, the write-side
batcher, the columnar row decoder, the point stream state machine, and the
derive-time schema-mapping generator, translated from the Rust sources in
`influxdb3-core` and `influxdb3-macro`.

Modelling conventions:
* `i64`/`u64` payloads are `Int` (range checks are explicit where the code
  performs them);
* `f64` payloads are abstracted as `Rat` (the code never computes with
  floats: it only stores, compares variants, and renders them);
* fallible paths return `Except`/`Option`; a Rust `expect`/panic is `none`;
* `HashMap` contents are association lists in iteration order.
-/

namespace Influx

/-- Model of a `chrono::DateTime<Utc>` instant: whole seconds since the Unix
epoch plus a nonnegative sub-second nanosecond component (`< 10^9` for every
instant chrono constructs; theorems take that bound as a hypothesis where they
need it). -/
structure DT where
  secs : Int
  nsecs : Nat
deriving DecidableEq

/-- chrono `DateTime::timestamp`: whole seconds since the epoch. -/
def DT.timestamp (d : DT) : Int := d.secs

/-- chrono `DateTime::timestamp_millis`:
`timestamp() * 1000 + timestamp_subsec_millis()`. -/
def DT.timestamp_millis (d : DT) : Int := d.secs * 1000 + (d.nsecs / 1000000 : Nat)

/-- chrono `DateTime::timestamp_micros`:
`timestamp() * 1_000_000 + timestamp_subsec_micros()`. -/
def DT.timestamp_micros (d : DT) : Int := d.secs * 1000000 + (d.nsecs / 1000 : Nat)

/-- The exact number of nanoseconds since the epoch, as an unbounded integer. -/
def DT.totalNanos (d : DT) : Int := d.secs * 1000000000 + d.nsecs

/-- chrono `DateTime::timestamp_nanos_opt`: the nanosecond count when it fits
in an `i64`, otherwise `none`. -/
def DT.timestamp_nanos_opt (d : DT) : Option Int :=
  if -(2 ^ 63) ≤ d.totalNanos ∧ d.totalNanos < 2 ^ 63 then some d.totalNanos else none

/-- `options.rs`: the `TimestampPrecision` enum. -/
inductive TimestampPrecision where
  | nanoseconds
  | microseconds
  | milliseconds
  | seconds
deriving DecidableEq

/-- `options.rs` `TimestampPrecision::process_timestamp`; the
`Nanoseconds` arm calls `timestamp_nanos_opt().expect(..)`, modelled as
`none` on overflow. -/
def TimestampPrecision.process_timestamp (p : TimestampPrecision) (dt : DT) : Option Int :=
  match p with
  | .nanoseconds => dt.timestamp_nanos_opt
  | .microseconds => some dt.timestamp_micros
  | .milliseconds => some dt.timestamp_millis
  | .seconds => some dt.timestamp

/-- `error.rs` `InfluxDBError`, restricted to the variants the core paths
construct. -/
inductive InfluxDBError where
  | invalidTimestampPrecision (s : String)
  | invalidTagName (s : String)
  | invalidPointValueConversion (msg : String)
  | invalidPointValue (name ty : String)
  | other (msg : String)
deriving DecidableEq

/-- `point_value.rs` `PointValue`. -/
inductive PointValue where
  | null
  | float (v : Rat)
  | integer (v : Int)
  | uinteger (v : Int)
  | boolean (v : Bool)
  | string (v : String)
  | timestamp (v : DT)
deriving DecidableEq

/-- `util.rs` `validate_name`: non-empty, first byte ASCII alphanumeric, all
bytes ASCII alphanumeric, underscore or hyphen.  The byte-level checks of the
Rust code coincide with these character-level checks: every allowed byte is
ASCII, and any non-ASCII character contributes a byte `≥ 0x80` that the byte
predicate rejects, just as the character predicate rejects the character. -/
def validate_name (name : String) : Bool :=
  !name.isEmpty &&
    (match name.data with
     | [] => false
     | c :: _ => c.isAlphanum) &&
    name.data.all (fun c => c.isAlphanum || c == '_' || c == '-')

/-- `tag_name.rs` `TagName`: a validated wrapper over text. -/
structure TagName where
  val : String
deriving DecidableEq

/-- `tag_name.rs` `TryFrom<&str> for TagName`. -/
def TagName.tryFrom (value : String) : Except InfluxDBError TagName :=
  if !validate_name value then
    .error (.invalidTagName value)
  else
    .ok ⟨value⟩

/-! ### Encode implementations (`point_value.rs`, total) -/

def encode_f64 (v : Rat) : PointValue := .float v

def encode_i8 (v : Int) : PointValue := .integer v

def encode_i16 (v : Int) : PointValue := .integer v

def encode_i32 (v : Int) : PointValue := .integer v

def encode_i64 (v : Int) : PointValue := .integer v

def encode_u8 (v : Int) : PointValue := .uinteger v

def encode_u16 (v : Int) : PointValue := .uinteger v

def encode_u32 (v : Int) : PointValue := .uinteger v

def encode_u64 (v : Int) : PointValue := .uinteger v

def encode_bool (v : Bool) : PointValue := .boolean v

def encode_string (v : String) : PointValue := .string v

def encode_timestamp (v : DT) : PointValue := .timestamp v

def encode_unit : PointValue := .null

/-- `impl<T: Encode> Encode for Option<T>`: `None` encodes to `Null`. -/
def encode_option {α : Type} (enc : α → PointValue) : Option α → PointValue
  | none => .null
  | some a => enc a

/-! ### Decode implementations (`point_value.rs`, fallible, variant-exact) -/

def decode_f64 : PointValue → Except InfluxDBError Rat
  | .float v => .ok v
  | _ => .error (.invalidPointValueConversion "PointValue is not a Float")

def decode_i8 : PointValue → Except InfluxDBError Int
  | .integer v =>
    if -128 ≤ v ∧ v ≤ 127 then .ok v
    else .error (.invalidPointValueConversion "Value out of range for i8")
  | _ => .error (.invalidPointValueConversion "PointValue is not an Integer")

def decode_i16 : PointValue → Except InfluxDBError Int
  | .integer v =>
    if -32768 ≤ v ∧ v ≤ 32767 then .ok v
    else .error (.invalidPointValueConversion "Value out of range for i16")
  | _ => .error (.invalidPointValueConversion "PointValue is not an Integer")

def decode_i32 : PointValue → Except InfluxDBError Int
  | .integer v =>
    if -2147483648 ≤ v ∧ v ≤ 2147483647 then .ok v
    else .error (.invalidPointValueConversion "Value out of range for i32")
  | _ => .error (.invalidPointValueConversion "PointValue is not an Integer")

def decode_i64 : PointValue → Except InfluxDBError Int
  | .integer v => .ok v
  | _ => .error (.invalidPointValueConversion "PointValue is not an Integer")

def decode_u8 : PointValue → Except InfluxDBError Int
  | .uinteger v =>
    if 0 ≤ v ∧ v ≤ 255 then .ok v
    else .error (.invalidPointValueConversion "Value out of range for u8")
  | _ => .error (.invalidPointValueConversion "PointValue is not a UInteger")

def decode_u16 : PointValue → Except InfluxDBError Int
  | .uinteger v =>
    if 0 ≤ v ∧ v ≤ 65535 then .ok v
    else .error (.invalidPointValueConversion "Value out of range for u16")
  | _ => .error (.invalidPointValueConversion "PointValue is not a UInteger")

def decode_u32 : PointValue → Except InfluxDBError Int
  | .uinteger v =>
    if 0 ≤ v ∧ v ≤ 4294967295 then .ok v
    else .error (.invalidPointValueConversion "Value out of range for u32")
  | _ => .error (.invalidPointValueConversion "PointValue is not a UInteger")

def decode_u64 : PointValue → Except InfluxDBError Int
  | .uinteger v => .ok v
  | _ => .error (.invalidPointValueConversion "PointValue is not a UInteger")

def decode_bool : PointValue → Except InfluxDBError Bool
  | .boolean v => .ok v
  | _ => .error (.invalidPointValueConversion "PointValue is not a Boolean")

def decode_string : PointValue → Except InfluxDBError String
  | .string v => .ok v
  | _ => .error (.invalidPointValueConversion "PointValue is not a String")

def decode_timestamp : PointValue → Except InfluxDBError DT
  | .timestamp v => .ok v
  | _ => .error (.invalidPointValueConversion "PointValue is not a Timestamp")

/-- `impl<T: Decode> Decode for Option<T>`: `Null` decodes to `None` for any
optional target, bypassing the inner decode. -/
def decode_option {α : Type} (dec : PointValue → Except InfluxDBError α) :
    PointValue → Except InfluxDBError (Option α)
  | .null => .ok none
  | v => (dec v).map some

/-- `PointValue::get_value`: `Null` yields `Ok(None)`, anything else defers to
the inner decode. -/
def PointValue.get_value {α : Type} (dec : PointValue → Except InfluxDBError α)
    (v : PointValue) : Except InfluxDBError (Option α) :=
  match v with
  | .null => .ok none
  | w => (dec w).map some

/-! Variant discriminators, used to state the variant-mismatch direction. -/

def PointValue.isFloatV : PointValue → Bool
  | .float _ => true
  | _ => false

def PointValue.isIntegerV : PointValue → Bool
  | .integer _ => true
  | _ => false

def PointValue.isUIntegerV : PointValue → Bool
  | .uinteger _ => true
  | _ => false

def PointValue.isBooleanV : PointValue → Bool
  | .boolean _ => true
  | _ => false

def PointValue.isStringV : PointValue → Bool
  | .string _ => true
  | _ => false

def PointValue.isTimestampV : PointValue → Bool
  | .timestamp _ => true
  | _ => false

def PointValue.isNullV : PointValue → Bool
  | .null => true
  | _ => false

/-- Claim C2: for every supported target type, decoding the `PointValue`
produced by encoding a value yields the value back (narrowing encodes are
value-preserving on the type's range); decoding a `PointValue` whose variant
does not match the target's variant returns a conversion error instead of
coercing; and narrowing decodes such as i64-to-i8 succeed exactly when the
stored value lies in the target's range.  `Option` composes transparently:
`None` encodes to `Null` and `Null` decodes to `None`.  (The `f32` target,
whose decode is an IEEE-754 rounding conversion, is outside the embedding;
every other supported target type is covered.) -/
theorem claim_C2_value_codec :
    (∀ q : Rat, decode_f64 (encode_f64 q) = .ok q) ∧
    (∀ n : Int, -128 ≤ n → n ≤ 127 → decode_i8 (encode_i8 n) = .ok n) ∧
    (∀ n : Int, -32768 ≤ n → n ≤ 32767 → decode_i16 (encode_i16 n) = .ok n) ∧
    (∀ n : Int, -2147483648 ≤ n → n ≤ 2147483647 → decode_i32 (encode_i32 n) = .ok n) ∧
    (∀ n : Int, decode_i64 (encode_i64 n) = .ok n) ∧
    (∀ n : Int, 0 ≤ n → n ≤ 255 → decode_u8 (encode_u8 n) = .ok n) ∧
    (∀ n : Int, 0 ≤ n → n ≤ 65535 → decode_u16 (encode_u16 n) = .ok n) ∧
    (∀ n : Int, 0 ≤ n → n ≤ 4294967295 → decode_u32 (encode_u32 n) = .ok n) ∧
    (∀ n : Int, decode_u64 (encode_u64 n) = .ok n) ∧
    (∀ b : Bool, decode_bool (encode_bool b) = .ok b) ∧
    (∀ s : String, decode_string (encode_string s) = .ok s) ∧
    (∀ d : DT, decode_timestamp (encode_timestamp d) = .ok d) ∧
    (∀ (α : Type) (enc : α → PointValue) (dec : PointValue → Except InfluxDBError α),
      encode_option enc none = .null ∧
      (∀ a, encode_option enc (some a) = enc a) ∧
      decode_option dec .null = .ok none ∧
      (∀ v, v.isNullV = false → decode_option dec v = (dec v).map some)) ∧
    (∀ o : Option Bool, decode_option decode_bool (encode_option encode_bool o) = .ok o) ∧
    (∀ v : PointValue, v.isFloatV = false →
      ∃ m, decode_f64 v = .error (.invalidPointValueConversion m)) ∧
    (∀ v : PointValue, v.isIntegerV = false →
      (∃ m, decode_i8 v = .error (.invalidPointValueConversion m)) ∧
      (∃ m, decode_i16 v = .error (.invalidPointValueConversion m)) ∧
      (∃ m, decode_i32 v = .error (.invalidPointValueConversion m)) ∧
      (∃ m, decode_i64 v = .error (.invalidPointValueConversion m))) ∧
    (∀ v : PointValue, v.isUIntegerV = false →
      (∃ m, decode_u8 v = .error (.invalidPointValueConversion m)) ∧
      (∃ m, decode_u16 v = .error (.invalidPointValueConversion m)) ∧
      (∃ m, decode_u32 v = .error (.invalidPointValueConversion m)) ∧
      (∃ m, decode_u64 v = .error (.invalidPointValueConversion m))) ∧
    (∀ v : PointValue, v.isBooleanV = false →
      ∃ m, decode_bool v = .error (.invalidPointValueConversion m)) ∧
    (∀ v : PointValue, v.isStringV = false →
      ∃ m, decode_string v = .error (.invalidPointValueConversion m)) ∧
    (∀ v : PointValue, v.isTimestampV = false →
      ∃ m, decode_timestamp v = .error (.invalidPointValueConversion m)) ∧
    (∀ n : Int, decode_i8 (.integer n) =
      if -128 ≤ n ∧ n ≤ 127 then .ok n
      else .error (.invalidPointValueConversion "Value out of range for i8")) ∧
    (∀ n : Int, decode_i16 (.integer n) =
      if -32768 ≤ n ∧ n ≤ 32767 then .ok n
      else .error (.invalidPointValueConversion "Value out of range for i16")) ∧
    (∀ n : Int, decode_i32 (.integer n) =
      if -2147483648 ≤ n ∧ n ≤ 2147483647 then .ok n
      else .error (.invalidPointValueConversion "Value out of range for i32")) ∧
    (∀ n : Int, decode_u8 (.uinteger n) =
      if 0 ≤ n ∧ n ≤ 255 then .ok n
      else .error (.invalidPointValueConversion "Value out of range for u8")) ∧
    (∀ n : Int, decode_u16 (.uinteger n) =
      if 0 ≤ n ∧ n ≤ 65535 then .ok n
      else .error (.invalidPointValueConversion "Value out of range for u16")) ∧
    (∀ n : Int, decode_u32 (.uinteger n) =
      if 0 ≤ n ∧ n ≤ 4294967295 then .ok n
      else .error (.invalidPointValueConversion "Value out of range for u32")) := by
  refine ⟨fun q => rfl, ?_, ?_, ?_, fun n => rfl, ?_, ?_, ?_, fun n => rfl,
    fun b => rfl, fun s => rfl, fun d => rfl, ?_, ?_, ?_, ?_, ?_, ?_, ?_, ?_,
    fun n => rfl, fun n => rfl, fun n => rfl, fun n => rfl, fun n => rfl, fun n => rfl⟩
  · intro n h1 h2
    simp [encode_i8, decode_i8, h1, h2]
  · intro n h1 h2
    simp [encode_i16, decode_i16, h1, h2]
  · intro n h1 h2
    simp [encode_i32, decode_i32, h1, h2]
  · intro n h1 h2
    simp [encode_u8, decode_u8, h1, h2]
  · intro n h1 h2
    simp [encode_u16, decode_u16, h1, h2]
  · intro n h1 h2
    simp [encode_u32, decode_u32, h1, h2]
  · intro α enc dec
    refine ⟨rfl, fun a => rfl, rfl, ?_⟩
    intro v h
    cases v <;> simp [PointValue.isNullV] at h ⊢ <;> rfl
  · intro o
    cases o <;> rfl
  · intro v h
    cases v <;> first
      | exact ⟨_, rfl⟩
      | simp [PointValue.isFloatV, PointValue.isBooleanV, PointValue.isStringV, PointValue.isTimestampV] at h
  · intro v h
    cases v <;> first
      | exact ⟨⟨_, rfl⟩, ⟨_, rfl⟩, ⟨_, rfl⟩, ⟨_, rfl⟩⟩
      | simp [PointValue.isIntegerV, PointValue.isUIntegerV] at h
  · intro v h
    cases v <;> first
      | exact ⟨⟨_, rfl⟩, ⟨_, rfl⟩, ⟨_, rfl⟩, ⟨_, rfl⟩⟩
      | simp [PointValue.isIntegerV, PointValue.isUIntegerV] at h
  · intro v h
    cases v <;> first
      | exact ⟨_, rfl⟩
      | simp [PointValue.isFloatV, PointValue.isBooleanV, PointValue.isStringV, PointValue.isTimestampV] at h
  · intro v h
    cases v <;> first
      | exact ⟨_, rfl⟩
      | simp [PointValue.isFloatV, PointValue.isBooleanV, PointValue.isStringV, PointValue.isTimestampV] at h
  · intro v h
    cases v <;> first
      | exact ⟨_, rfl⟩
      | simp [PointValue.isTimestampV] at h

/-- Witness for C2 at concrete inputs: the i8 round trip at `-5` and the
narrowing failure boundary are discharged by applying the claim theorem. -/
theorem claim_C2_value_codec_witness :
    decode_i8 (encode_i8 (-5)) = .ok (-5) ∧
    decode_u8 (encode_u8 200) = .ok 200 :=
  ⟨claim_C2_value_codec.2.1 (-5) (by decide) (by decide),
   claim_C2_value_codec.2.2.2.2.2.1 200 (by decide) (by decide)⟩

/-! ### Tag names (C7) -/

/-- The tag-name validity condition as the claim states it: non-empty, first
character ASCII alphanumeric, every character ASCII alphanumeric, underscore
or hyphen. -/
def specTagNameOk (s : String) : Prop :=
  s ≠ "" ∧
  (∃ c cs, s.data = c :: cs ∧ c.isAlphanum = true) ∧
  (∀ c ∈ s.data, (c.isAlphanum || c == '_' || c == '-') = true)

theorem string_eq_empty_iff_data (s : String) : s = "" ↔ s.data = [] := by
  constructor
  · intro h
    subst h
    rfl
  · intro h
    cases s with
    | mk data => simp only [String.data] at h; subst h; rfl

theorem validate_name_iff (s : String) : validate_name s = true ↔ specTagNameOk s := by
  unfold validate_name specTagNameOk
  rw [Bool.and_eq_true, Bool.and_eq_true, Bool.not_eq_true']
  constructor
  · rintro ⟨⟨h1, h2⟩, h3⟩
    refine ⟨?_, ?_, ?_⟩
    · intro he
      rw [he] at h1
      exact absurd h1 (by decide)
    · cases hd : s.data with
      | nil => rw [hd] at h2; exact absurd h2 (by simp)
      | cons c cs => rw [hd] at h2; exact ⟨c, cs, rfl, h2⟩
    · intro c hc
      exact List.all_eq_true.mp h3 c hc
  · rintro ⟨h1, ⟨c, cs, hd, hc⟩, h3⟩
    refine ⟨⟨?_, ?_⟩, ?_⟩
    · rw [Bool.eq_false_iff]
      intro he
      exact h1 ((String.isEmpty_iff s).mp he)
    · rw [hd]; exact hc
    · exact List.all_eq_true.mpr h3

/-- Claim C7: `TagName` construction from a string succeeds exactly on the
strings satisfying the validator (non-empty, leading ASCII alphanumeric, all
characters ASCII alphanumeric, underscore or hyphen); on success the wrapper
carries exactly the input text, and on any violating input it returns the
invalid-tag-name error. -/
theorem claim_C7_tag_name (s : String) :
    ((∃ t, TagName.tryFrom s = .ok t) ↔ specTagNameOk s) ∧
    (∀ t, TagName.tryFrom s = .ok t → t.val = s) ∧
    (specTagNameOk s → TagName.tryFrom s = .ok ⟨s⟩) ∧
    (¬ specTagNameOk s → TagName.tryFrom s = .error (.invalidTagName s)) := by
  by_cases h : validate_name s = true
  · have hs := (validate_name_iff s).mp h
    refine ⟨⟨fun _ => hs, fun _ => ⟨⟨s⟩, by simp [TagName.tryFrom, h]⟩⟩, ?_, ?_, ?_⟩
    · intro t ht
      simp [TagName.tryFrom, h] at ht
      rw [← ht]
    · intro _
      simp [TagName.tryFrom, h]
    · intro hn
      exact absurd hs hn
  · have hs : ¬ specTagNameOk s := fun hh => h ((validate_name_iff s).mpr hh)
    have hb : validate_name s = false := Bool.eq_false_iff.mpr h
    refine ⟨⟨?_, fun hh => absurd hh hs⟩, ?_, ?_, ?_⟩
    · rintro ⟨t, ht⟩
      simp [TagName.tryFrom, hb] at ht
    · intro t ht
      simp [TagName.tryFrom, hb] at ht
    · intro hh
      exact absurd hh hs
    · intro _
      simp [TagName.tryFrom, hb]

/-- Witness for C7: the empty string is rejected with the invalid-tag-name
error. -/
theorem claim_C7_tag_name_witness :
    TagName.tryFrom "" = .error (.invalidTagName "") :=
  (claim_C7_tag_name "").2.2.2 (fun h => h.1 rfl)

/-! ### The point entity (`point.rs`) -/

/-- Replace-or-append insertion into an association list, modelling
`HashMap::insert` together with the map's iteration order. -/
def insertAssoc {β : Type} (l : List (String × β)) (k : String) (v : β) :
    List (String × β) :=
  if l.any (fun kv => kv.1 == k) then
    l.map (fun kv => if kv.1 == k then (k, v) else kv)
  else
    l ++ [(k, v)]

def lookupAssoc {β : Type} (l : List (String × β)) (k : String) : Option β :=
  (l.find? (fun kv => kv.1 == k)).map (fun kv => kv.2)

/-- `point.rs` `Point`: measurement name, tag map, field map, timestamp.
Map contents are association lists in iteration order. -/
structure Point where
  measurement_name : String
  tags : List (String × String)
  fields : List (String × PointValue)
  time : DT
deriving DecidableEq

/-- `Point::default()`: empty maps, epoch timestamp. -/
def Point.default : Point := ⟨"", [], [], ⟨0, 0⟩⟩

def Point.set_measurement (p : Point) (name : String) : Point :=
  { p with measurement_name := name }

def Point.set_timestamp (p : Point) (t : DT) : Point :=
  { p with time := t }

/-- `Point::set_tag`: converts the key through `TryFrom<TagName>` and
`expect`s, i.e. panics on an invalid tag name — modelled as `none`. -/
def Point.set_tag (p : Point) (key value : String) : Option Point :=
  match TagName.tryFrom key with
  | .ok t => some { p with tags := insertAssoc p.tags t.val value }
  | .error _ => none

/-- `Point::set_field`: the value argument is the already-encoded
`PointValue`; the insertion is guarded by `validate_name`, and an invalid key
silently leaves the point untouched. -/
def Point.set_field (p : Point) (key : String) (value : PointValue) : Point :=
  if validate_name key then
    { p with fields := insertAssoc p.fields key value }
  else
    p

/-- Claim C8: for every point, every key failing the name validator and every
value, the field setter returns without an error, does not insert the field
under that key, and leaves measurement, tags, fields and timestamp unchanged. -/
theorem claim_C8_set_field_noop (p : Point) (key : String) (v : PointValue)
    (h : validate_name key = false) :
    p.set_field key v = p ∧
    (lookupAssoc p.fields key = none →
      lookupAssoc (p.set_field key v).fields key = none) := by
  refine ⟨?_, ?_⟩ <;> simp [Point.set_field, h]

/-- Witness for C8: a key containing a space fails the validator and the
setter is the identity on a concrete point. -/
theorem claim_C8_set_field_noop_witness :
    Point.set_field ⟨"cpu", [], [], ⟨0, 0⟩⟩ "bad key" (.integer 3) =
      ⟨"cpu", [], [], ⟨0, 0⟩⟩ :=
  (claim_C8_set_field_noop ⟨"cpu", [], [], ⟨0, 0⟩⟩ "bad key" (.integer 3)
    (by decide)).1

/-! ### Timestamp precision (C9) -/

/-- The claim's direct conversion of an instant at a target precision:
floor-truncation of the exact nanosecond count by the precision's divisor.
(`/` on `Int` is Euclidean division, which agrees with floor division for the
positive divisors used here.) -/
def directAtPrecision (p : TimestampPrecision) (d : DT) : Int :=
  match p with
  | .nanoseconds => d.totalNanos
  | .microseconds => d.totalNanos / 1000
  | .milliseconds => d.totalNanos / 1000000
  | .seconds => d.totalNanos / 1000000000

/-- Claim C9: timestamp rendering is precision-exact.  For every instant (with
its sub-second component in `[0, 10^9)` as chrono guarantees), the integer
produced at microsecond, millisecond or second precision equals the direct
floor-truncation of the exact nanosecond count at that precision, and at
nanosecond precision it equals the nanosecond count since the epoch whenever
that count is representable. -/
theorem claim_C9_precision_exact (d : DT) (h : d.nsecs < 1000000000) :
    TimestampPrecision.process_timestamp .microseconds d =
      some (directAtPrecision .microseconds d) ∧
    TimestampPrecision.process_timestamp .milliseconds d =
      some (directAtPrecision .milliseconds d) ∧
    TimestampPrecision.process_timestamp .seconds d =
      some (directAtPrecision .seconds d) ∧
    (-(2 ^ 63) ≤ d.totalNanos → d.totalNanos < 2 ^ 63 →
      TimestampPrecision.process_timestamp .nanoseconds d =
        some (directAtPrecision .nanoseconds d)) := by
  refine ⟨?_, ?_, ?_, ?_⟩
  · simp only [TimestampPrecision.process_timestamp, DT.timestamp_micros,
      directAtPrecision, DT.totalNanos, Option.some.injEq]
    omega
  · simp only [TimestampPrecision.process_timestamp, DT.timestamp_millis,
      directAtPrecision, DT.totalNanos, Option.some.injEq]
    omega
  · simp only [TimestampPrecision.process_timestamp, DT.timestamp,
      directAtPrecision, DT.totalNanos, Option.some.injEq]
    omega
  · intro h1 h2
    simp only [TimestampPrecision.process_timestamp, DT.timestamp_nanos_opt,
      directAtPrecision]
    rw [if_pos ⟨h1, h2⟩]

/-- Witness for C9 at a concrete pre-epoch instant (one nanosecond before the
epoch), where floor-truncation and the per-field formulas agree on `-1`. -/
theorem claim_C9_precision_exact_witness :
    TimestampPrecision.process_timestamp .microseconds ⟨-1, 999999999⟩ =
      some (directAtPrecision .microseconds ⟨-1, 999999999⟩) :=
  (claim_C9_precision_exact ⟨-1, 999999999⟩ (by decide)).1

/-! ### String helpers used by the serializer and batcher proofs -/

def sjoin (l : List String) : String := l.foldl (fun a b => a ++ b) ""

theorem foldl_sappend (l : List String) : ∀ a, l.foldl (fun x y => x ++ y) a = a ++ sjoin l := by
  induction l with
  | nil =>
    intro a
    simp [sjoin, String.append_empty]
  | cons x xs ih =>
    intro a
    have h2 : sjoin (x :: xs) = x ++ sjoin xs := by
      show (x :: xs).foldl _ "" = _
      simp only [List.foldl_cons]
      rw [ih ("" ++ x), String.empty_append]
    simp only [List.foldl_cons]
    rw [ih (a ++ x), h2, String.append_assoc]

theorem sjoin_cons (x : String) (xs : List String) : sjoin (x :: xs) = x ++ sjoin xs := by
  show (x :: xs).foldl _ "" = _
  simp only [List.foldl_cons]
  rw [foldl_sappend, String.empty_append]

theorem sjoin_append (l1 l2 : List String) : sjoin (l1 ++ l2) = sjoin l1 ++ sjoin l2 := by
  induction l1 with
  | nil =>
    rw [List.nil_append, show sjoin [] = "" from rfl, String.empty_append]
  | cons x xs ih =>
    simp only [List.cons_append, sjoin_cons, ih, String.append_assoc]

theorem sappend_utf8ByteSize (a b : String) :
    (a ++ b).utf8ByteSize = a.utf8ByteSize + b.utf8ByteSize := by
  cases a with
  | mk da =>
    cases b with
    | mk db =>
      show String.utf8ByteSize ⟨da ++ db⟩ = _
      simp [String.utf8Len_append]

theorem ne_empty_of_right_pos (a b : String) (h : 0 < b.utf8ByteSize) : a ++ b ≠ "" := by
  intro he
  have hs := congrArg String.utf8ByteSize he
  rw [sappend_utf8ByteSize] at hs
  simp only [show String.utf8ByteSize "" = 0 from rfl] at hs
  omega

theorem sjoin_utf8ByteSize (l : List String) :
    (sjoin l).utf8ByteSize = (l.map String.utf8ByteSize).sum := by
  induction l with
  | nil => rfl
  | cons x xs ih => rw [sjoin_cons, sappend_utf8ByteSize, ih, List.map_cons, List.sum_cons]

/-! ### `PointValue::serialize` and `Point::serialize` (`point.rs`) -/

/-- The escaping performed on string field values: the two sequential
`replace` calls (`\` ↦ `\\`, then `"` ↦ `\"`) equal this single character
pass, since the first pass introduces no quotes. -/
def escapeRust (s : String) : String :=
  String.mk (s.data.flatMap (fun c =>
    if c = '\\' then ['\\', '\\'] else if c = '"' then ['\\', '"'] else [c]))

/-- `PointValue::serialize`: the rendered field-value text.  `Float` payloads
render through the model's `Rat` rendering, standing in for the `f64` decimal
rendering; the `Timestamp` arm calls `timestamp_nanos_opt().expect(..)`,
modelled as `none` out of range. -/
def PointValue.serializeStr : PointValue → Option String
  | .null => some ""
  | .float v => some (toString v)
  | .integer v => some (toString v ++ "i")
  | .uinteger v => some (toString v ++ "u")
  | .boolean v => some (if v then "t" else "f")
  | .string v => some ("\"" ++ escapeRust v ++ "\"")
  | .timestamp v => v.timestamp_nanos_opt.map toString

/-- The tag loop of `Point::serialize`: append `,key=value` per entry. -/
def appendTagsTo (buf : String) (tags : List (String × String)) : String :=
  tags.foldl (fun acc kv => acc ++ "," ++ kv.1 ++ "=" ++ kv.2) buf

/-- The field loop of `Point::serialize`: a first-field flag suppresses the
leading comma; each entry appends `key=value`. -/
def appendFieldsTo : String → List (String × PointValue) → Bool → Option String
  | buf, [], _ => some buf
  | buf, (k, v) :: rest, first =>
    match v.serializeStr with
    | none => none
    | some vs =>
      appendFieldsTo (buf ++ (if first then "" else ",") ++ k ++ "=" ++ vs) rest false

/-- `Point::serialize`, producing the bytes this point appends to the buffer:
measurement, default tags, own tags, space, fields, space, timestamp, newline.
`none` models the panics reachable inside (timestamp out of `i64` nanosecond
range). -/
def Point.serialize (p : Point) (precision : TimestampPrecision)
    (default_tags : List (String × String)) : Option String :=
  match appendFieldsTo (appendTagsTo (appendTagsTo p.measurement_name default_tags) p.tags
      ++ " ") p.fields true, precision.process_timestamp p.time with
  | some buf2, some ts => some (buf2 ++ " " ++ toString ts ++ "\n")
  | _, _ => none

/-! Spec-side rendering pieces, worded from the claim. -/

def tagFrag (kv : String × String) : String := "," ++ kv.1 ++ "=" ++ kv.2

def fieldFrag (kv : String × PointValue) : String :=
  kv.1 ++ "=" ++ (kv.2.serializeStr.getD "")

/-- Fields comma-separated with no trailing comma (empty set renders empty,
leaving the lone trailing space before the timestamp). -/
def fieldsJoined : List (String × PointValue) → String
  | [] => ""
  | kv :: rest => fieldFrag kv ++ sjoin (rest.map (fun kv2 => "," ++ fieldFrag kv2))

theorem appendTagsTo_eq (tags : List (String × String)) :
    ∀ buf, appendTagsTo buf tags = buf ++ sjoin (tags.map tagFrag) := by
  induction tags with
  | nil =>
    intro buf
    simp [appendTagsTo, sjoin, String.append_empty]
  | cons kv rest ih =>
    intro buf
    show appendTagsTo (buf ++ "," ++ kv.1 ++ "=" ++ kv.2) rest = _
    rw [ih, List.map_cons, sjoin_cons, tagFrag]
    simp [String.append_assoc]

theorem appendFieldsTo_false (fields : List (String × PointValue))
    (hf : ∀ kv ∈ fields, (PointValue.serializeStr kv.2).isSome) :
    ∀ buf, appendFieldsTo buf fields false =
      some (buf ++ sjoin (fields.map (fun kv => "," ++ fieldFrag kv))) := by
  induction fields with
  | nil =>
    intro buf
    simp [appendFieldsTo, sjoin, String.append_empty]
  | cons kv rest ih =>
    intro buf
    obtain ⟨k, v⟩ := kv
    have hkv : (PointValue.serializeStr v).isSome := hf (k, v) (List.mem_cons_self (k, v) rest)
    obtain ⟨vs, hvs⟩ := Option.isSome_iff_exists.mp hkv
    have hrest : ∀ kv2 ∈ rest, (PointValue.serializeStr kv2.2).isSome :=
      fun kv2 hm => hf kv2 (List.mem_cons_of_mem (k, v) hm)
    simp only [appendFieldsTo, hvs]
    rw [ih hrest]
    rw [List.map_cons, sjoin_cons]
    simp only [fieldFrag, hvs]
    simp [String.append_assoc, Option.getD]

theorem appendFieldsTo_true (fields : List (String × PointValue))
    (hf : ∀ kv ∈ fields, (PointValue.serializeStr kv.2).isSome) (buf : String) :
    appendFieldsTo buf fields true = some (buf ++ fieldsJoined fields) := by
  cases fields with
  | nil => simp [appendFieldsTo, fieldsJoined, String.append_empty]
  | cons kv rest =>
    obtain ⟨k, v⟩ := kv
    have hkv : (PointValue.serializeStr v).isSome := hf (k, v) (List.mem_cons_self (k, v) rest)
    obtain ⟨vs, hvs⟩ := Option.isSome_iff_exists.mp hkv
    have hrest : ∀ kv2 ∈ rest, (PointValue.serializeStr kv2.2).isSome :=
      fun kv2 hm => hf kv2 (List.mem_cons_of_mem (k, v) hm)
    simp only [appendFieldsTo, hvs]
    rw [appendFieldsTo_false rest hrest]
    simp only [fieldsJoined, fieldFrag, hvs]
    simp [String.append_assoc, String.append_empty, Option.getD]

/-- Claim C4: for every point whose timestamp renders at the chosen precision
and whose field values all render, serialization produces exactly one line:
measurement, the caller-supplied default tags in caller order as `,key=value`,
the point's own tags in map-iteration order as `,key=value`, a single space,
the fields comma-separated as `key=value` with no trailing comma (an empty
field set contributes nothing, leaving a lone trailing space), a space, the
rendered timestamp, and a terminating newline. -/
theorem claim_C4_serialize_format (p : Point) (prec : TimestampPrecision)
    (dtags : List (String × String)) (ts : Int)
    (hts : prec.process_timestamp p.time = some ts)
    (hf : ∀ kv ∈ p.fields, (PointValue.serializeStr kv.2).isSome) :
    p.serialize prec dtags =
      some (p.measurement_name
        ++ sjoin (dtags.map tagFrag)
        ++ sjoin (p.tags.map tagFrag)
        ++ " " ++ fieldsJoined p.fields
        ++ " " ++ toString ts ++ "\n") := by
  unfold Point.serialize
  rw [appendTagsTo_eq, appendTagsTo_eq, appendFieldsTo_true p.fields hf, hts]

/-- Witness for C4: a concrete point with one tag and one field under one
default tag serializes to the expected line. -/
theorem claim_C4_serialize_format_witness :
    Point.serialize ⟨"cpu", [("host", "a")], [("value", .float 2)], ⟨0, 5⟩⟩
      .nanoseconds [("env", "prod")] =
      some ("cpu" ++ sjoin ([("env", "prod")].map tagFrag)
        ++ sjoin ([("host", "a")].map tagFrag)
        ++ " " ++ fieldsJoined [("value", .float 2)]
        ++ " " ++ toString (5 : Int) ++ "\n") :=
  claim_C4_serialize_format ⟨"cpu", [("host", "a")], [("value", .float 2)], ⟨0, 5⟩⟩
    .nanoseconds [("env", "prod")] 5 (by decide)
    (by intro kv hm; simp at hm; subst hm; rfl)

/-! ### The batcher (`batch_writer.rs`) -/

def MAX_LINES : Nat := 10000

def MAX_BYTES : Nat := 10 * 1024 * 1024

/-- `batch_writer.rs` `Batcher` (the precision and the default tags are fixed
parameters of a run and are passed at each call instead of being stored). -/
structure Batcher where
  buffers : List String
  current_buffer : String
  current_lines : Nat
deriving DecidableEq

def Batcher.new : Batcher := ⟨[], "", 0⟩

/-- The body of `Batcher::add_point` once the point's serialized line is in
hand: append the bytes to the current buffer, bump the line count, and seal
(push the buffer and reset) when the line count reaches `MAX_LINES` or the
buffer byte length reaches `MAX_BYTES`. -/
def Batcher.addLine (b : Batcher) (s : String) : Batcher :=
  let cb := b.current_buffer ++ s
  let cl := b.current_lines + 1
  if MAX_LINES ≤ cl ∨ MAX_BYTES ≤ cb.utf8ByteSize then
    ⟨b.buffers ++ [cb], "", 0⟩
  else
    ⟨b.buffers, cb, cl⟩

/-- `Batcher::add_point`: serialization happens first (a panic inside it is
`none`), then the threshold check. -/
def Batcher.add_point (b : Batcher) (prec : TimestampPrecision)
    (dtags : List (String × String)) (p : Point) : Option Batcher :=
  (p.serialize prec dtags).map b.addLine

/-- `Batcher::finalize`: seal any non-empty trailing buffer and return the
sealed buffers in order. -/
def Batcher.finalize (b : Batcher) : List String :=
  if b.current_buffer = "" then b.buffers else b.buffers ++ [b.current_buffer]

def Batcher.runPoints (prec : TimestampPrecision) (dtags : List (String × String))
    (ps : List Point) : Option Batcher :=
  ps.foldlM (fun b p => Batcher.add_point b prec dtags p) Batcher.new

/-- Batcher state representation: the sealed buffers are the concatenations of
the line groups `gs`, the open buffer is the concatenation of the trailing
lines `r`, the running count is `r`'s length and stays below the line
threshold, and every sealed group is non-empty with at most `MAX_LINES`
lines. -/
def Reps (b : Batcher) (gs : List (List String)) (r : List String) : Prop :=
  b.buffers = gs.map sjoin ∧
  b.current_buffer = sjoin r ∧
  b.current_lines = r.length ∧
  r.length < MAX_LINES ∧
  ∀ g ∈ gs, 0 < g.length ∧ g.length ≤ MAX_LINES

theorem sjoin_singleton (s : String) : sjoin [s] = s := by
  show List.foldl _ _ _ = s
  simp only [List.foldl_cons, List.foldl_nil]
  exact String.empty_append s

theorem addLine_reps (b : Batcher) (gs : List (List String)) (r : List String)
    (s : String) (h : Reps b gs r) :
    ∃ gs2 r2, Reps (b.addLine s) gs2 r2 ∧
      gs2.flatten ++ r2 = gs.flatten ++ r ++ [s] := by
  obtain ⟨h1, h2, h3, h4, h5⟩ := h
  unfold Batcher.addLine
  by_cases hc : MAX_LINES ≤ b.current_lines + 1 ∨
      MAX_BYTES ≤ (b.current_buffer ++ s).utf8ByteSize
  · rw [if_pos hc]
    refine ⟨gs ++ [r ++ [s]], [], ⟨?_, rfl, rfl, by decide, ?_⟩, ?_⟩
    · rw [h1, h2, List.map_append, List.map_cons, List.map_nil,
        sjoin_append, sjoin_singleton]
    · intro g hg
      rcases List.mem_append.mp hg with hg | hg
      · exact h5 g hg
      · rw [List.mem_singleton.mp hg]
        simp only [List.length_append, List.length_cons, List.length_nil]
        omega
    · rw [List.flatten_append, List.flatten_cons, List.flatten_nil,
        List.append_nil, List.append_nil, List.append_assoc]
  · rw [if_neg hc]
    push_neg at hc
    refine ⟨gs, r ++ [s], ⟨h1, ?_, ?_, ?_, h5⟩, by rw [List.append_assoc]⟩
    · rw [h2, sjoin_append, sjoin_singleton]
    · rw [h3]; simp
    · simp only [List.length_append, List.length_cons, List.length_nil]
      omega

theorem runLines_reps (ls : List String) :
    ∀ (b : Batcher) (gs : List (List String)) (r : List String), Reps b gs r →
    ∃ gs2 r2, Reps (ls.foldl Batcher.addLine b) gs2 r2 ∧
      gs2.flatten ++ r2 = gs.flatten ++ r ++ ls := by
  induction ls with
  | nil =>
    intro b gs r h
    exact ⟨gs, r, h, by simp⟩
  | cons s rest ih =>
    intro b gs r h
    obtain ⟨gs1, r1, h1, he1⟩ := addLine_reps b gs r s h
    obtain ⟨gs2, r2, h2, he2⟩ := ih _ gs1 r1 h1
    refine ⟨gs2, r2, h2, ?_⟩
    rw [he2, he1]
    simp [List.append_assoc]

theorem utf8_pos_of_ne_empty (s : String) (h : s ≠ "") : 0 < s.utf8ByteSize := by
  cases s with
  | mk d =>
    cases d with
    | nil => exact absurd rfl h
    | cons c cs =>
      show 0 < String.utf8ByteSize ⟨c :: cs⟩
      have := Char.utf8Size_pos c
      simp only [String.utf8ByteSize_mk, String.utf8Len_cons]
      omega

theorem ne_empty_of_left_pos (a b : String) (h : 0 < a.utf8ByteSize) : a ++ b ≠ "" := by
  intro he
  have hs := congrArg String.utf8ByteSize he
  rw [sappend_utf8ByteSize] at hs
  simp only [show String.utf8ByteSize "" = 0 from rfl] at hs
  omega

theorem sjoin_ne_empty_of_head (x : String) (xs : List String) (h : x ≠ "") :
    sjoin (x :: xs) ≠ "" := by
  rw [sjoin_cons]
  exact ne_empty_of_left_pos x (sjoin xs) (utf8_pos_of_ne_empty x h)

theorem finalize_reps (b : Batcher) (gs : List (List String)) (r : List String)
    (h : Reps b gs r) (hne : ∀ l ∈ r, l ≠ "") :
    ∃ gs2 : List (List String), b.finalize = gs2.map sjoin ∧
      gs2.flatten = gs.flatten ++ r ∧
      ∀ g ∈ gs2, 0 < g.length ∧ g.length ≤ MAX_LINES := by
  obtain ⟨h1, h2, h3, h4, h5⟩ := h
  unfold Batcher.finalize
  cases r with
  | nil =>
    rw [if_pos (by rw [h2]; rfl)]
    exact ⟨gs, h1, by simp, h5⟩
  | cons x xs =>
    rw [if_neg (by
      rw [h2]
      exact sjoin_ne_empty_of_head x xs (hne x (List.mem_cons_self x xs)))]
    refine ⟨gs ++ [x :: xs], ?_, ?_, ?_⟩
    · rw [h1, h2, List.map_append, List.map_cons, List.map_nil]
    · rw [List.flatten_append, List.flatten_cons, List.flatten_nil, List.append_nil]
    · intro g hg
      rcases List.mem_append.mp hg with hg | hg
      · exact h5 g hg
      · rw [List.mem_singleton.mp hg]
        refine ⟨by simp, ?_⟩
        simp only [List.length_cons] at h4 ⊢
        omega

theorem sjoin_flatten (gs : List (List String)) :
    sjoin (gs.map sjoin) = sjoin gs.flatten := by
  induction gs with
  | nil => rfl
  | cons g rest ih =>
    rw [List.map_cons, List.flatten_cons, sjoin_cons, sjoin_append, ih]

theorem serialize_ne_empty (p : Point) (prec : TimestampPrecision)
    (dtags : List (String × String)) (s : String)
    (h : p.serialize prec dtags = some s) : s ≠ "" := by
  unfold Point.serialize at h
  split at h
  · cases h
    exact ne_empty_of_right_pos _ "\n" (by decide)
  · cases h

theorem runPoints_go (prec : TimestampPrecision) (dtags : List (String × String)) :
    ∀ (ps : List Point) (lines : List String) (b : Batcher),
    ps.map (fun p => p.serialize prec dtags) = lines.map some →
    List.foldlM (fun b p => Batcher.add_point b prec dtags p) b ps =
      some (lines.foldl Batcher.addLine b) := by
  intro ps
  induction ps with
  | nil =>
    intro lines b h
    cases lines with
    | nil => rfl
    | cons l ls => simp at h
  | cons p rest ih =>
    intro lines b h
    cases lines with
    | nil => simp at h
    | cons l ls =>
      simp only [List.map_cons, List.cons.injEq] at h
      obtain ⟨h1, h2⟩ := h
      rw [List.foldlM_cons]
      show (Batcher.add_point b prec dtags p) >>= _ = _
      rw [Batcher.add_point, h1]
      show (List.foldlM _ (b.addLine l) rest) = _
      rw [ih ls (b.addLine l) h2, List.foldl_cons]

theorem mem_lines_ne_empty (prec : TimestampPrecision) (dtags : List (String × String))
    (ps : List Point) (lines : List String)
    (h : ps.map (fun p => p.serialize prec dtags) = lines.map some) :
    ∀ l ∈ lines, l ≠ "" := by
  intro l hl
  have : some l ∈ lines.map some := List.mem_map_of_mem some hl
  rw [← h] at this
  obtain ⟨p, _, hp⟩ := List.mem_map.mp this
  exact serialize_ne_empty p prec dtags l hp

/-- Claim C1: for every finite sequence of points that serialize (the claim's
"valid points"), running the batcher over them succeeds, and the sealed
buffers produced by finalize partition the serialized lines into consecutive
groups: concatenating the buffers in order reproduces exactly the
concatenation of the points' serializations in insertion order, no buffer
holds more than `MAX_LINES` (10,000) lines, and since every buffer is the
concatenation of whole lines, no point's bytes are split across two
buffers. -/
theorem claim_C1_batcher_exact (ps : List Point) (prec : TimestampPrecision)
    (dtags : List (String × String)) (lines : List String)
    (hser : ps.map (fun p => p.serialize prec dtags) = lines.map some) :
    Batcher.runPoints prec dtags ps = some (lines.foldl Batcher.addLine Batcher.new) ∧
    ∃ gs : List (List String),
      (lines.foldl Batcher.addLine Batcher.new).finalize = gs.map sjoin ∧
      gs.flatten = lines ∧
      (∀ g ∈ gs, 0 < g.length ∧ g.length ≤ MAX_LINES) ∧
      sjoin ((lines.foldl Batcher.addLine Batcher.new).finalize) = sjoin lines := by
  have hnew : Reps Batcher.new [] [] := by
    refine ⟨rfl, rfl, rfl, by decide, by intro g hg; cases hg⟩
  obtain ⟨gs1, r1, h1, he1⟩ := runLines_reps lines Batcher.new [] [] hnew
  have hne : ∀ l ∈ r1, l ≠ "" := by
    intro l hl
    have hmem : l ∈ lines := by
      have : l ∈ gs1.flatten ++ r1 := List.mem_append_right _ hl
      rw [he1] at this
      simpa using this
    exact mem_lines_ne_empty prec dtags ps lines hser l hmem
  obtain ⟨gs2, hf1, hf2, hf3⟩ := finalize_reps _ gs1 r1 h1 hne
  have hflat : gs2.flatten = lines := by
    rw [hf2]
    have : gs1.flatten ++ r1 = lines := by simpa using he1
    exact this
  refine ⟨runPoints_go prec dtags ps lines Batcher.new hser, gs2, hf1, hflat, hf3, ?_⟩
  rw [hf1, sjoin_flatten, hflat]

/-- Witness for C1 at the concrete singleton sequence of the C4 witness
point, whose serialization is `cpu,host=a value=2 5\n`. -/
theorem claim_C1_batcher_exact_witness :
    Batcher.runPoints .nanoseconds [("env", "prod")]
        [⟨"cpu", [("host", "a")], [("value", .float 2)], ⟨0, 5⟩⟩] =
      some (["cpu,env=prod,host=a value=2 5\n"].foldl Batcher.addLine Batcher.new) ∧
    ∃ gs : List (List String),
      (["cpu,env=prod,host=a value=2 5\n"].foldl Batcher.addLine Batcher.new).finalize =
        gs.map sjoin ∧
      gs.flatten = ["cpu,env=prod,host=a value=2 5\n"] ∧
      (∀ g ∈ gs, 0 < g.length ∧ g.length ≤ MAX_LINES) ∧
      sjoin ((["cpu,env=prod,host=a value=2 5\n"].foldl Batcher.addLine Batcher.new).finalize) =
        sjoin ["cpu,env=prod,host=a value=2 5\n"] :=
  claim_C1_batcher_exact [⟨"cpu", [("host", "a")], [("value", .float 2)], ⟨0, 5⟩⟩]
    .nanoseconds [("env", "prod")] ["cpu,env=prod,host=a value=2 5\n"] (by rfl)

theorem sjoin_replicate_size (s : String) (n : Nat) :
    (sjoin (List.replicate n s)).utf8ByteSize = n * s.utf8ByteSize := by
  rw [sjoin_utf8ByteSize, List.map_replicate, List.sum_replicate, smul_eq_mul]

theorem addLine_eq_seal (b : Batcher) (l : String)
    (hc : MAX_LINES ≤ b.current_lines + 1 ∨
      MAX_BYTES ≤ (b.current_buffer ++ l).utf8ByteSize) :
    b.addLine l = ⟨b.buffers ++ [b.current_buffer ++ l], "", 0⟩ := by
  unfold Batcher.addLine
  rw [if_pos hc]

theorem addLine_eq_keep (b : Batcher) (l : String)
    (hc : ¬(MAX_LINES ≤ b.current_lines + 1 ∨
      MAX_BYTES ≤ (b.current_buffer ++ l).utf8ByteSize)) :
    b.addLine l = ⟨b.buffers, b.current_buffer ++ l, b.current_lines + 1⟩ := by
  unfold Batcher.addLine
  rw [if_neg hc]

theorem run_replicate_small (s : String) (h2 : s.utf8ByteSize ≤ 1000) :
    ∀ k, k < MAX_LINES →
      (List.replicate k s).foldl Batcher.addLine Batcher.new =
        ⟨[], sjoin (List.replicate k s), k⟩ := by
  intro k
  induction k with
  | zero => intro _; rfl
  | succ n ih =>
    intro hk
    rw [List.replicate_succ', List.foldl_append]
    rw [ih (Nat.lt_of_succ_lt hk)]
    have hc : ¬(MAX_LINES ≤ n + 1 ∨
        MAX_BYTES ≤ (sjoin (List.replicate n s) ++ s).utf8ByteSize) := by
      push_neg
      constructor
      · exact hk
      · rw [sappend_utf8ByteSize, sjoin_replicate_size]
        unfold MAX_LINES at hk
        unfold MAX_BYTES
        nlinarith
    rw [List.foldl_cons, List.foldl_nil]
    rw [addLine_eq_keep _ _ hc]
    rw [sjoin_append, sjoin_singleton]

set_option maxRecDepth 2048 in
/-- Claim C3: after each appended point, the buffer is sealed exactly when the
bumped line count reaches 10,000 or the grown buffer byte length reaches
10 MiB (so a sealed buffer exceeds the byte threshold by at most the bytes of
the point that crossed it, given the pre-state was below the threshold);
finalize seals a non-empty trailing buffer and drops an empty one; and adding
10,001 points that all serialize to the same small line yields exactly two
sealed buffers, the first the concatenation of exactly 10,000 lines and the
second a single line. -/
theorem claim_C3_seal_thresholds (s : String) (h1 : s ≠ "") (h2 : s.utf8ByteSize ≤ 1000) :
    (∀ (b : Batcher) (l : String),
      (b.addLine l).buffers ≠ b.buffers ↔
        (MAX_LINES ≤ b.current_lines + 1 ∨
          MAX_BYTES ≤ (b.current_buffer ++ l).utf8ByteSize)) ∧
    (∀ (b : Batcher) (l : String),
      (MAX_LINES ≤ b.current_lines + 1 ∨
          MAX_BYTES ≤ (b.current_buffer ++ l).utf8ByteSize) →
        b.addLine l = ⟨b.buffers ++ [b.current_buffer ++ l], "", 0⟩) ∧
    (∀ (b : Batcher) (l : String),
      ¬(MAX_LINES ≤ b.current_lines + 1 ∨
          MAX_BYTES ≤ (b.current_buffer ++ l).utf8ByteSize) →
        b.addLine l = ⟨b.buffers, b.current_buffer ++ l, b.current_lines + 1⟩) ∧
    (∀ (b : Batcher) (l : String), b.current_buffer.utf8ByteSize < MAX_BYTES →
      ∀ buf ∈ (b.addLine l).buffers, buf ∈ b.buffers ∨
        buf.utf8ByteSize < MAX_BYTES + l.utf8ByteSize) ∧
    (∀ b : Batcher, b.current_buffer ≠ "" → b.finalize = b.buffers ++ [b.current_buffer]) ∧
    (∀ b : Batcher, b.current_buffer = "" → b.finalize = b.buffers) ∧
    ((List.replicate 10001 s).foldl Batcher.addLine Batcher.new).finalize =
      [sjoin (List.replicate 10000 s), s] := by
  refine ⟨?_, ?_, ?_, ?_, ?_, ?_, ?_⟩
  · intro b l
    unfold Batcher.addLine
    constructor
    · intro hne
      by_contra hc
      rw [if_neg hc] at hne
      exact hne rfl
    · intro hc
      rw [if_pos hc]
      intro heq
      have := congrArg List.length heq
      simp at this
  · intro b l hc
    unfold Batcher.addLine
    rw [if_pos hc]
  · intro b l hc
    unfold Batcher.addLine
    rw [if_neg hc]
  · intro b l hpre buf hbuf
    unfold Batcher.addLine at hbuf
    by_cases hc : MAX_LINES ≤ b.current_lines + 1 ∨
        MAX_BYTES ≤ (b.current_buffer ++ l).utf8ByteSize
    · rw [if_pos hc] at hbuf
      simp only [List.mem_append, List.mem_singleton] at hbuf
      rcases hbuf with hbuf | hbuf
      · exact Or.inl hbuf
      · right
        rw [hbuf, sappend_utf8ByteSize]
        omega
    · rw [if_neg hc] at hbuf
      exact Or.inl hbuf
  · intro b hb
    unfold Batcher.finalize
    rw [if_neg hb]
  · intro b hb
    unfold Batcher.finalize
    rw [if_pos hb]
  · have h9999 : (List.replicate 9999 s).foldl Batcher.addLine Batcher.new =
        ⟨[], sjoin (List.replicate 9999 s), 9999⟩ :=
      run_replicate_small s h2 9999 (by decide)
    have h10000 : (List.replicate 10000 s).foldl Batcher.addLine Batcher.new =
        ⟨[sjoin (List.replicate 10000 s)], "", 0⟩ := by
      rw [show (10000 : Nat) = 9999 + 1 from rfl, List.replicate_succ', List.foldl_append,
        h9999]
      rw [List.foldl_cons, List.foldl_nil, sjoin_append, sjoin_singleton]
      generalize sjoin (List.replicate 9999 s) = t
      have hcs : MAX_LINES ≤ 9999 + 1 ∨ MAX_BYTES ≤ (t ++ s).utf8ByteSize :=
        Or.inl (by unfold MAX_LINES; omega)
      rw [addLine_eq_seal ⟨[], t, 9999⟩ s hcs]
      rfl
    have h10001 : (List.replicate 10001 s).foldl Batcher.addLine Batcher.new =
        ⟨[sjoin (List.replicate 10000 s)], s, 1⟩ := by
      rw [show (10001 : Nat) = 10000 + 1 from rfl, List.replicate_succ', List.foldl_append,
        h10000]
      have hc : ¬(MAX_LINES ≤ 0 + 1 ∨ MAX_BYTES ≤ ("" ++ s).utf8ByteSize) := by
        push_neg
        refine ⟨by decide, ?_⟩
        rw [String.empty_append]
        unfold MAX_BYTES
        omega
      rw [List.foldl_cons, List.foldl_nil]
      rw [addLine_eq_keep _ _ hc]
      rw [String.empty_append]
    rw [h10001]
    unfold Batcher.finalize
    rw [if_neg h1]
    rfl

/-- Witness for C3 at the concrete line `cpu v=1 0\n`. -/
theorem claim_C3_seal_thresholds_witness :
    ((List.replicate 10001 "cpu v=1 0\n").foldl Batcher.addLine Batcher.new).finalize =
      [sjoin (List.replicate 10000 "cpu v=1 0\n"), "cpu v=1 0\n"] :=
  (claim_C3_seal_thresholds "cpu v=1 0\n" (by decide) (by decide)).2.2.2.2.2.2

/-! ### The schema-mapping generator (`influxdb3-macro`: `parser.rs`,
`to_point.rs`, `from_point.rs`), modelled at the level of the parsed
per-field `influxdb` attribute items. -/

/-- One item inside a field's `#[influxdb(...)]` attribute. -/
inductive MetaAttr where
  | timeAttr
  | tagAttr
  | renameAttr (s : String)
  | defaultAttr
  | ignoreAttr
  | unknownAttr
deriving DecidableEq

/-- A named field of the annotated record: its name and its attribute items
in source order (the declared Rust type plays no role in the validations). -/
structure FieldDef where
  name : String
  attrs : List MetaAttr
deriving DecidableEq

/-- `parser.rs` `FieldType`. -/
inductive FieldType where
  | time
  | tag
  | field
deriving DecidableEq

/-- `parser.rs` `FieldInfo` (without the Rust type). -/
structure FieldInfo where
  name : String
  ftype : FieldType
  rename : Option String
  use_default : Bool
  ignore : Bool
deriving DecidableEq

/-- The mutable flags accumulated by the attribute loop of `parse_fields`. -/
structure AttrState where
  timeCnt : Nat
  isTag : Bool
  rename : Option String
  use_default : Bool
  ignore : Bool
deriving DecidableEq

/-- The `parse_nested_meta` loop of `parse_fields`: processes the attribute
items in order; every `time` item bumps `time_field_count`; an unknown item
is an error. -/
def parseAttrs : List MetaAttr → AttrState → Except String AttrState
  | [], st => .ok st
  | a :: rest, st =>
    match a with
    | .timeAttr => parseAttrs rest { st with timeCnt := st.timeCnt + 1 }
    | .tagAttr => parseAttrs rest { st with isTag := true }
    | .renameAttr s => parseAttrs rest { st with rename := some s }
    | .defaultAttr => parseAttrs rest { st with use_default := true }
    | .ignoreAttr => parseAttrs rest { st with ignore := true }
    | .unknownAttr => .error "Unknown influxdb attribute"

/-- The per-field body of `parse_fields`: a field named `time` counts toward
the time-field count before the attribute loop runs; then the ignore/tag/time
conflict check, the effective field type (an explicit `time` item wins, then
`tag`, then the name-based designation), and the more-than-one-time check,
which fires only while processing a field whose effective type is time. -/
def processField (f : FieldDef) (cnt : Nat) : Except String (FieldInfo × Nat) :=
  match parseAttrs f.attrs ⟨0, false, none, false, false⟩ with
  | .error e => .error e
  | .ok st =>
    if st.ignore && (st.isTag || decide (0 < st.timeCnt)) then
      .error "Ignored fields cannot be marked as tag or time"
    else
      if (if 0 < st.timeCnt then FieldType.time
          else if st.isTag then FieldType.tag
          else if f.name = "time" then FieldType.time
          else FieldType.field) = FieldType.time ∧
          1 < (if f.name = "time" then cnt + 1 else cnt) + st.timeCnt then
        .error "Only one field can be marked as time"
      else
        .ok (⟨f.name,
          if 0 < st.timeCnt then FieldType.time
          else if st.isTag then FieldType.tag
          else if f.name = "time" then FieldType.time
          else FieldType.field, st.rename, st.use_default, st.ignore⟩,
          (if f.name = "time" then cnt + 1 else cnt) + st.timeCnt)

def parse_fields_go : List FieldDef → Nat → Except String (List FieldInfo)
  | [], _ => .ok []
  | f :: rest, cnt =>
    match processField f cnt with
    | .error e => .error e
    | .ok (info, cnt2) =>
      match parse_fields_go rest cnt2 with
      | .error e => .error e
      | .ok infos => .ok (info :: infos)

/-- `parser.rs` `parse_fields`, starting with `time_field_count = 0`. -/
def parse_fields (fs : List FieldDef) : Except String (List FieldInfo) :=
  parse_fields_go fs 0

/-- The code generated by the `ToPoint` derive, abstracted to its content:
which record field (if any) supplies the timestamp (`none` is the
`Utc::now()` fallback), and the tag/field assignments as
(point name, record field) pairs in source order. -/
structure ToPointImpl where
  timeField : Option String
  tagAssigns : List (String × String)
  fieldAssigns : List (String × String)
deriving DecidableEq

def toPointStep (acc : ToPointImpl) (info : FieldInfo) : ToPointImpl :=
  if info.ignore then acc
  else
    let pointName := info.rename.getD info.name
    match info.ftype with
    | .time => { acc with timeField := some info.name }
    | .tag => { acc with tagAssigns := acc.tagAssigns ++ [(pointName, info.name)] }
    | .field => { acc with fieldAssigns := acc.fieldAssigns ++ [(pointName, info.name)] }

/-- `to_point.rs` `derive_into_point_impl`: parse, then emit assignments for
every non-ignored field; with no time field the generated code falls back to
the current time (`timeField = none`).  Parsing is the only failure path. -/
def derive_into_point_impl (fs : List FieldDef) : Except String ToPointImpl :=
  match parse_fields fs with
  | .error e => .error e
  | .ok infos => .ok (infos.foldl toPointStep ⟨none, [], []⟩)

/-- The code generated by the `FromPoint` derive, abstracted to its content. -/
structure FromPointImpl where
  timeField : String
  tagExtracts : List FieldInfo
  fieldExtracts : List FieldInfo
deriving DecidableEq

def fromPointTimeStep (acc : Option String) (info : FieldInfo) : Option String :=
  match info.ftype with
  | .time => some info.name
  | _ => acc

def fromPointTime (infos : List FieldInfo) : Option String :=
  infos.foldl fromPointTimeStep none

/-- `from_point.rs` `derive_from_point_impl`: parse; every ignored field must
also carry `default`; a time field is required — its absence is a hard
generation error. -/
def derive_from_point_impl (fs : List FieldDef) : Except String FromPointImpl :=
  match parse_fields fs with
  | .error e => .error e
  | .ok infos =>
    if infos.any (fun i => i.ignore && !i.use_default) then
      .error "Ignored fields must also be marked with default"
    else
      match fromPointTime infos with
      | some t =>
        .ok ⟨t, infos.filter (fun i => i.ftype = FieldType.tag),
          infos.filter (fun i => i.ftype = FieldType.field)⟩
      | none => .error "FromPoint requires a time field"

/-- A field's effective time designation: it carries an explicit `time`
attribute item, or it is named `time` and carries no `tag` item (a `tag`
item overrides the name-based designation). -/
def effTime (f : FieldDef) : Bool :=
  f.attrs.any (fun a => decide (a = MetaAttr.timeAttr)) ||
    (decide (f.name = "time") && !f.attrs.any (fun a => decide (a = MetaAttr.tagAttr)))

theorem parseAttrs_ok (attrs : List MetaAttr) :
    ∀ st0 st, parseAttrs attrs st0 = .ok st →
      st.timeCnt = st0.timeCnt + attrs.countP (fun a => decide (a = MetaAttr.timeAttr)) ∧
      st.isTag = (st0.isTag || attrs.any (fun a => decide (a = MetaAttr.tagAttr))) := by
  induction attrs with
  | nil =>
    intro st0 st h
    cases h
    simp
  | cons a rest ih =>
    intro st0 st h
    cases a <;> simp only [parseAttrs] at h
    · obtain ⟨h1, h2⟩ := ih _ _ h
      refine ⟨?_, ?_⟩
      · rw [h1]
        simp only [List.countP_cons]
        simp
        omega
      · rw [h2]
        simp
    · obtain ⟨h1, h2⟩ := ih _ _ h
      refine ⟨?_, ?_⟩
      · rw [h1]
        simp [List.countP_cons]
      · rw [h2]
        simp
    · obtain ⟨h1, h2⟩ := ih _ _ h
      refine ⟨?_, ?_⟩
      · rw [h1]
        simp [List.countP_cons]
      · rw [h2]
        simp
    · obtain ⟨h1, h2⟩ := ih _ _ h
      refine ⟨?_, ?_⟩
      · rw [h1]
        simp [List.countP_cons]
      · rw [h2]
        simp
    · obtain ⟨h1, h2⟩ := ih _ _ h
      refine ⟨?_, ?_⟩
      · rw [h1]
        simp [List.countP_cons]
      · rw [h2]
        simp
    · cases h

theorem effTime_iff (f : FieldDef) :
    effTime f = true ↔
      ((∃ a ∈ f.attrs, a = MetaAttr.timeAttr) ∨
        (f.name = "time" ∧ ¬∃ a ∈ f.attrs, a = MetaAttr.tagAttr)) := by
  simp only [effTime, Bool.or_eq_true, Bool.and_eq_true, List.any_eq_true,
    decide_eq_true_eq, Bool.not_eq_true', List.any_eq_false,
    decide_eq_false_iff_not]
  constructor
  · rintro (h | ⟨h1, h2⟩)
    · exact Or.inl h
    · refine Or.inr ⟨h1, ?_⟩
      rintro ⟨a, ha, rfl⟩
      exact h2 _ ha rfl
  · rintro (h | ⟨h1, h2⟩)
    · exact Or.inl h
    · refine Or.inr ⟨h1, ?_⟩
      intro a ha he
      exact h2 ⟨a, ha, he⟩

theorem processField_error_of_effTime (f : FieldDef) (cnt : Nat)
    (heff : effTime f = true) (hcnt : 1 ≤ cnt) :
    ∃ e, processField f cnt = .error e := by
  rcases hpa : parseAttrs f.attrs ⟨0, false, none, false, false⟩ with e | st
  · exact ⟨e, by simp only [processField, hpa]⟩
  · simp only [processField, hpa]
    obtain ⟨ht, hg⟩ := parseAttrs_ok f.attrs _ _ hpa
    by_cases hig : (st.ignore && (st.isTag || decide (0 < st.timeCnt))) = true
    · rw [if_pos hig]
      exact ⟨_, rfl⟩
    · rw [if_neg hig]
      have hcntP : (0 < st.timeCnt) ↔ (∃ a ∈ f.attrs, a = MetaAttr.timeAttr) := by
        rw [ht]
        simp only [Nat.zero_add]
        rw [List.countP_pos_iff]
        constructor
        · rintro ⟨a, ha, hd⟩
          exact ⟨a, ha, by simpa using hd⟩
        · rintro ⟨a, ha, rfl⟩
          exact ⟨_, ha, by simp⟩
      have hgP : st.isTag = true ↔ (∃ a ∈ f.attrs, a = MetaAttr.tagAttr) := by
        rw [hg]
        simp only [Bool.false_or, List.any_eq_true]
        constructor
        · rintro ⟨a, ha, hd⟩
          exact ⟨a, ha, by simpa using hd⟩
        · rintro ⟨a, ha, rfl⟩
          exact ⟨_, ha, by simp⟩
      rcases (effTime_iff f).mp heff with hattr | ⟨hname, hno⟩
      · have htc : 0 < st.timeCnt := hcntP.mpr hattr
        rw [if_pos ⟨by rw [if_pos htc], by
          by_cases hnm : (f.name = "time" : Prop)
          · rw [if_pos hnm]; omega
          · rw [if_neg hnm]; omega⟩]
        exact ⟨_, rfl⟩
      · have hnotag : st.isTag ≠ true := fun hit => hno (hgP.mp hit)
        by_cases htc : 0 < st.timeCnt
        · rw [if_pos ⟨by rw [if_pos htc], by rw [if_pos hname]; omega⟩]
          exact ⟨_, rfl⟩
        · rw [if_pos ⟨by rw [if_neg htc, if_neg hnotag, if_pos hname], by
            rw [if_pos hname]; omega⟩]
          exact ⟨_, rfl⟩

theorem processField_ok_facts (f : FieldDef) (cnt : Nat) (info : FieldInfo) (cnt2 : Nat)
    (h : processField f cnt = .ok (info, cnt2)) :
    cnt ≤ cnt2 ∧ (info.ftype = FieldType.time ↔ effTime f = true) ∧
      (effTime f = true → cnt + 1 ≤ cnt2) := by
  rcases hpa : parseAttrs f.attrs ⟨0, false, none, false, false⟩ with e | st
  · rw [processField, hpa] at h
    cases h
  · simp only [processField, hpa] at h
    obtain ⟨ht, hg⟩ := parseAttrs_ok f.attrs _ _ hpa
    have hcntP : (0 < st.timeCnt) ↔ (∃ a ∈ f.attrs, a = MetaAttr.timeAttr) := by
      rw [ht]
      simp only [Nat.zero_add]
      rw [List.countP_pos_iff]
      constructor
      · rintro ⟨a, ha, hd⟩
        exact ⟨a, ha, by simpa using hd⟩
      · rintro ⟨a, ha, rfl⟩
        exact ⟨_, ha, by simp⟩
    have hgP : st.isTag = true ↔ (∃ a ∈ f.attrs, a = MetaAttr.tagAttr) := by
      rw [hg]
      simp only [Bool.false_or, List.any_eq_true]
      constructor
      · rintro ⟨a, ha, hd⟩
        exact ⟨a, ha, by simpa using hd⟩
      · rintro ⟨a, ha, rfl⟩
        exact ⟨_, ha, by simp⟩
    by_cases hig : (st.ignore && (st.isTag || decide (0 < st.timeCnt))) = true
    · rw [if_pos hig] at h
      cases h
    · rw [if_neg hig] at h
      by_cases hcond : ((if 0 < st.timeCnt then FieldType.time
          else if st.isTag = true then FieldType.tag
          else if f.name = "time" then FieldType.time
          else FieldType.field) = FieldType.time ∧
          1 < (if f.name = "time" then cnt + 1 else cnt) + st.timeCnt)
      · rw [if_pos hcond] at h
        cases h
      · rw [if_neg hcond] at h
        cases h
        refine ⟨?_, ?_, ?_⟩
        · by_cases hnm : (f.name = "time" : Prop)
          · rw [if_pos hnm]; omega
          · rw [if_neg hnm]; omega
        · rw [effTime_iff]
          by_cases htc : 0 < st.timeCnt
          · rw [if_pos htc]
            exact iff_of_true rfl (Or.inl (hcntP.mp htc))
          · rw [if_neg htc]
            by_cases hit : st.isTag = true
            · rw [if_pos hit]
              apply iff_of_false
              · intro hco
                simp at hco
              rintro (hco | ⟨_, hno⟩)
              · exact htc (hcntP.mpr hco)
              · exact hno (hgP.mp hit)
            · rw [if_neg hit]
              by_cases hnm : (f.name = "time" : Prop)
              · rw [if_pos hnm]
                exact iff_of_true rfl (Or.inr ⟨hnm, fun hex => hit (hgP.mpr hex)⟩)
              · rw [if_neg hnm]
                apply iff_of_false
                · intro hco
                  simp at hco
                rintro (hco | ⟨hco, _⟩)
                · exact htc (hcntP.mpr hco)
                · exact hnm hco
        · intro heff
          rcases (effTime_iff f).mp heff with hattr | ⟨hname, _⟩
          · have htc : 0 < st.timeCnt := hcntP.mpr hattr
            by_cases hnm : (f.name = "time" : Prop)
            · rw [if_pos hnm]; omega
            · rw [if_neg hnm]; omega
          · rw [if_pos hname]; omega

theorem parse_fields_go_error_of_times (fs : List FieldDef) :
    ∀ cnt : Nat,
      (2 ≤ (fs.filter effTime).length ∨
        (1 ≤ (fs.filter effTime).length ∧ 1 ≤ cnt)) →
      ∃ e, parse_fields_go fs cnt = .error e := by
  induction fs with
  | nil =>
    intro cnt h
    simp only [List.filter_nil, List.length_nil] at h
    rcases h with h | ⟨h, _⟩ <;> omega
  | cons f rest ih =>
    intro cnt h
    rcases hpf : processField f cnt with e | p
    · exact ⟨e, by simp only [parse_fields_go, hpf]⟩
    · obtain ⟨info, cnt2⟩ := p
      obtain ⟨hle, hiff, hplus⟩ := processField_ok_facts f cnt info cnt2 hpf
      cases heff : effTime f with
      | true =>
        have hfl : ((f :: rest).filter effTime).length =
            (rest.filter effTime).length + 1 := by
          simp [List.filter_cons, heff]
        rcases h with h2 | ⟨h1, hcnt⟩
        · rw [hfl] at h2
          have hc2 : 1 ≤ cnt2 := by
            have := hplus heff
            omega
          obtain ⟨e, he⟩ := ih cnt2 (Or.inr ⟨by omega, hc2⟩)
          exact ⟨e, by simp only [parse_fields_go, hpf, he]⟩
        · obtain ⟨e, he⟩ := processField_error_of_effTime f cnt heff hcnt
          rw [hpf] at he
          cases he
      | false =>
        have hfl : ((f :: rest).filter effTime).length =
            (rest.filter effTime).length := by
          simp [List.filter_cons, heff]
        rw [hfl] at h
        obtain ⟨e, he⟩ := ih cnt2 (by
          rcases h with h2 | ⟨h1, hcnt⟩
          · exact Or.inl h2
          · exact Or.inr ⟨h1, by omega⟩)
        exact ⟨e, by simp only [parse_fields_go, hpf, he]⟩

theorem parse_fields_go_no_time (fs : List FieldDef) :
    ∀ cnt infos, parse_fields_go fs cnt = .ok infos →
      (∀ f ∈ fs, effTime f = false) →
      ∀ i ∈ infos, i.ftype ≠ FieldType.time := by
  induction fs with
  | nil =>
    intro cnt infos h _
    cases h
    intro i hi
    cases hi
  | cons f rest ih =>
    intro cnt infos h hall
    rcases hpf : processField f cnt with e | p
    · simp only [parse_fields_go, hpf] at h
      cases h
    · obtain ⟨info, cnt2⟩ := p
      simp only [parse_fields_go, hpf] at h
      rcases hgo : parse_fields_go rest cnt2 with e | infos2
      · rw [hgo] at h
        cases h
      · rw [hgo] at h
        cases h
        intro i hi
        rcases List.mem_cons.mp hi with hh | hi2
        · subst hh
          obtain ⟨_, hiff, _⟩ := processField_ok_facts f cnt i cnt2 hpf
          intro hit
          have hef := hiff.mp hit
          rw [hall f (List.mem_cons_self f rest)] at hef
          cases hef
        · exact ih cnt2 infos2 hgo
            (fun g hg => hall g (List.mem_cons_of_mem f hg)) i hi2

theorem fromPointTime_fold_const (infos : List FieldInfo)
    (h : ∀ i ∈ infos, i.ftype ≠ FieldType.time) :
    ∀ acc, infos.foldl fromPointTimeStep acc = acc := by
  induction infos with
  | nil => intro acc; rfl
  | cons i rest ih =>
    intro acc
    rw [List.foldl_cons]
    rw [ih (fun g hg => h g (List.mem_cons_of_mem i hg))]
    unfold fromPointTimeStep
    rcases hft : i.ftype with _ | _ | _
    · exact absurd hft (h i (List.mem_cons_self i rest))
    · simp only [hft]
    · simp only [hft]

theorem fromPointTime_none (infos : List FieldInfo)
    (h : ∀ i ∈ infos, i.ftype ≠ FieldType.time) :
    fromPointTime infos = none :=
  fromPointTime_fold_const infos h none

theorem toPoint_fold_timeField (infos : List FieldInfo)
    (h : ∀ i ∈ infos, i.ftype ≠ FieldType.time) :
    ∀ acc, (infos.foldl toPointStep acc).timeField = acc.timeField := by
  induction infos with
  | nil => intro acc; rfl
  | cons i rest ih =>
    intro acc
    rw [List.foldl_cons]
    rw [ih (fun g hg => h g (List.mem_cons_of_mem i hg))]
    unfold toPointStep
    by_cases hig : i.ignore = true
    · rw [if_pos hig]
    · rw [if_neg hig]
      rcases hft : i.ftype with _ | _ | _
      · exact absurd hft (h i (List.mem_cons_self i rest))
      · simp only [hft]
      · simp only [hft]

/-- Counterexample to C5 as stated: a record with zero time-role fields (a
single plain field `temp`) is accepted by Record→Point schema-mapping
generation — the generated code falls back to the current time — instead of
failing at build time as the claim requires for the zero-time case. -/
theorem claim_C5_counterexample :
    derive_into_point_impl [⟨"temp", []⟩] = .ok ⟨none, [], [("temp", "temp")]⟩ := rfl

/-- Claim C5 amended: a record with two (effectively) time-designated fields
is rejected at generation time by both derives — a field is effectively
time-designated when it carries the `time` attribute, or is named `time`
without a `tag` attribute overriding it; a record with zero time-designated
fields is rejected only by Point→Record generation, while Record→Point
generation succeeds and falls back to the current time. -/
theorem claim_C5_time_field_validation (fs : List FieldDef) :
    (2 ≤ (fs.filter effTime).length →
      (∃ e, parse_fields fs = .error e) ∧
      (∃ e, derive_into_point_impl fs = .error e) ∧
      (∃ e, derive_from_point_impl fs = .error e)) ∧
    ((∀ f ∈ fs, effTime f = false) →
      ∃ e, derive_from_point_impl fs = .error e) ∧
    (∀ infos, parse_fields fs = .ok infos → (∀ f ∈ fs, effTime f = false) →
      ∃ impl, derive_into_point_impl fs = .ok impl ∧ impl.timeField = none) := by
  refine ⟨?_, ?_, ?_⟩
  · intro h2
    obtain ⟨e, he⟩ := parse_fields_go_error_of_times fs 0 (Or.inl h2)
    have he2 : parse_fields fs = .error e := he
    refine ⟨⟨e, he2⟩, ⟨e, ?_⟩, ⟨e, ?_⟩⟩
    · simp only [derive_into_point_impl, he2]
    · simp only [derive_from_point_impl, he2]
  · intro hall
    rcases hp : parse_fields fs with e | infos
    · exact ⟨e, by simp only [derive_from_point_impl, hp]⟩
    · have hnone : ∀ i ∈ infos, i.ftype ≠ FieldType.time :=
        parse_fields_go_no_time fs 0 infos hp hall
      by_cases hany : (infos.any fun i => i.ignore && !i.use_default) = true
      · refine ⟨"Ignored fields must also be marked with default", ?_⟩
        simp only [derive_from_point_impl, hp]
        rw [if_pos hany]
      · refine ⟨"FromPoint requires a time field", ?_⟩
        simp only [derive_from_point_impl, hp]
        rw [if_neg hany, fromPointTime_none infos hnone]
  · intro infos hp hall
    refine ⟨infos.foldl toPointStep ⟨none, [], []⟩, ?_, ?_⟩
    · simp only [derive_into_point_impl, hp]
    · exact toPoint_fold_timeField infos
        (parse_fields_go_no_time fs 0 infos hp hall) ⟨none, [], []⟩

/-- Witness for the amended C5 at scenario D: a record with a field named
`time` and a second field carrying the `time` attribute is rejected by the
shared field parser, hence by both derives. -/
theorem claim_C5_time_field_validation_witness :
    ∃ e, parse_fields [⟨"time", []⟩, ⟨"stamp", [MetaAttr.timeAttr]⟩] = .error e :=
  ((claim_C5_time_field_validation [⟨"time", []⟩, ⟨"stamp", [MetaAttr.timeAttr]⟩]).1
    (by decide)).1

/-! ### The columnar decoder (`point_stream.rs`) -/

/-- `point_stream.rs` `ColumnType`. -/
inductive ColumnType where
  | integer
  | uinteger
  | float
  | string
  | boolean
  | tag
  | timestamp
  | unknown
deriving DecidableEq

/-- `impl From<&str> for ColumnType`. -/
def ColumnType.fromStr (s : String) : ColumnType :=
  if s = "iox::column_type::field::integer" then .integer
  else if s = "iox::column_type::field::uinteger" then .uinteger
  else if s = "iox::column_type::field::float" then .float
  else if s = "iox::column_type::field::string" then .string
  else if s = "iox::column_type::field::boolean" then .boolean
  else if s = "iox::column_type::tag" then .tag
  else if s = "iox::column_type::timestamp" then .timestamp
  else .unknown

/-- The classifications whose `get_point` arm is the plain set-field
catch-all. -/
def ColumnType.isFieldClass : ColumnType → Bool
  | .integer => true
  | .uinteger => true
  | .float => true
  | .string => true
  | .boolean => true
  | _ => false

inductive ArrowTimeUnit where
  | second
  | millisecond
  | microsecond
  | nanosecond
deriving DecidableEq

/-- An arrow column's physical type together with its cells (one optional
value per row; `none` is a null cell), reflecting the typed arrays
`get_arrow_value` downcasts to. -/
inductive ColData where
  | nullType (rows : Nat)
  | boolean (cells : List (Option Bool))
  | float64 (cells : List (Option Rat))
  | int64 (cells : List (Option Int))
  | uint64 (cells : List (Option Int))
  | utf8 (cells : List (Option String))
  | timestamp (unit : ArrowTimeUnit) (cells : List (Option Int))
  | unsupported (typeName : String) (rows : Nat)
deriving DecidableEq

def ColData.isUtf8 : ColData → Bool
  | .utf8 _ => true
  | _ => false

def ColData.isTimestampType : ColData → Bool
  | .timestamp _ _ => true
  | _ => false

/-- A column of a record batch: field name, the `iox::column::type` metadata
entry when present, and the typed data. -/
structure Col where
  name : String
  meta : Option String
  data : ColData
deriving DecidableEq

/-- The first and last whole second representable by a chrono `NaiveDate`
(year -262143 through year 262142): the timestamps of
-262143-01-01T00:00:00Z and 262142-12-31T23:59:59Z (chrono's documented
`NaiveDateTime::MIN.timestamp()` and `NaiveDateTime::MAX.timestamp()`).
`DateTime::from_timestamp` and its second/millisecond/microsecond wrappers
return `None` for seconds outside this range. -/
def chronoMinSec : Int := -8334601228800

def chronoMaxSec : Int := 8210266876799

/-- chrono `DateTime::from_timestamp_secs`. -/
def from_timestamp_secs (n : Int) : Option DT :=
  if chronoMinSec ≤ n ∧ n ≤ chronoMaxSec then some ⟨n, 0⟩ else none

/-- chrono `DateTime::from_timestamp_millis`: Euclidean split into whole
seconds and sub-second nanoseconds, then the seconds range check. -/
def from_timestamp_millis (n : Int) : Option DT :=
  if chronoMinSec ≤ n / 1000 ∧ n / 1000 ≤ chronoMaxSec then
    some ⟨n / 1000, ((n % 1000) * 1000000).toNat⟩
  else none

/-- chrono `DateTime::from_timestamp_micros`. -/
def from_timestamp_micros (n : Int) : Option DT :=
  if chronoMinSec ≤ n / 1000000 ∧ n / 1000000 ≤ chronoMaxSec then
    some ⟨n / 1000000, ((n % 1000000) * 1000).toNat⟩
  else none

/-- chrono `DateTime::from_timestamp_nanos`: infallible — every `i64`
nanosecond count lies well inside the representable range. -/
def from_timestamp_nanos (n : Int) : DT :=
  ⟨n / 1000000000, (n % 1000000000).toNat⟩

/-- The chrono constructor `get_arrow_value` applies per arrow time unit;
`none` is the out-of-range failure its `.expect("Invalid timestamp")` turns
into a panic (the nanosecond constructor is infallible). -/
def dtFromArrow (u : ArrowTimeUnit) (n : Int) : Option DT :=
  match u with
  | .second => from_timestamp_secs n
  | .millisecond => from_timestamp_millis n
  | .microsecond => from_timestamp_micros n
  | .nanosecond => some (from_timestamp_nanos n)

/-- The outcome of one value extraction: a value, a typed error, or a
panic. -/
inductive ValResult where
  | ok (v : PointValue)
  | err (e : InfluxDBError)
  | panic
deriving DecidableEq

/-- `get_arrow_value`: match on the physical type; a null cell yields `Null`,
otherwise the cell wrapped in the matching variant.  Two panic paths are
modelled: the `UInt64` arm downcasts the array to an `Int64Array`
(`as_primitive_array`), a downcast that can never succeed and panics before
any cell is read; and the `Second`/`Millisecond`/`Microsecond` timestamp
arms `expect` on the fallible chrono constructors, panicking when the cell's
seconds fall outside chrono's representable range (the `Nanosecond`
constructor is infallible; each timestamp arm null-checks before
converting, factored here through the shared null check and `dtFromArrow`).
An unsupported physical type is the typed `InvalidPointValue` error carrying
the column name and its type. -/
def get_arrow_value (c : Col) (row : Nat) : ValResult :=
  match c.data with
  | .nullType _ => .ok .null
  | .boolean cells =>
    match cells.getD row none with
    | none => .ok .null
    | some b => .ok (.boolean b)
  | .float64 cells =>
    match cells.getD row none with
    | none => .ok .null
    | some q => .ok (.float q)
  | .int64 cells =>
    match cells.getD row none with
    | none => .ok .null
    | some n => .ok (.integer n)
  | .uint64 _ => .panic
  | .utf8 cells =>
    match cells.getD row none with
    | none => .ok .null
    | some s => .ok (.string s)
  | .timestamp u cells =>
    match cells.getD row none with
    | none => .ok .null
    | some n =>
      match dtFromArrow u n with
      | some d => .ok (.timestamp d)
      | none => .panic
  | .unsupported ty _ => .err (.invalidPointValue c.name ty)

/-- The outcome of decoding one row: a point, a row error (propagated by
`?`), or a panic (an extraction panic from `get_arrow_value`, or
`Point::set_tag`'s `expect` on an invalid tag name). -/
inductive RowResult where
  | ok (p : Point)
  | err (e : InfluxDBError)
  | panic
deriving DecidableEq

/-- The classification match of `get_point`'s loop body (everything after the
measurement special case). -/
def stepColClassified (p : Point) (c : Col) (value : PointValue) : RowResult :=
  match ColumnType.fromStr ((c.meta).getD "") with
  | .unknown =>
    if c.data.isTimestampType && decide (c.name = "time") then
      match PointValue.get_value decode_timestamp value with
      | .error e => .err e
      | .ok (some t) => .ok (p.set_timestamp t)
      | .ok none => .ok p
    else
      .ok (p.set_field c.name value)
  | .tag =>
    match PointValue.get_value decode_string value with
    | .error e => .err e
    | .ok (some v) =>
      match p.set_tag c.name v with
      | some p2 => .ok p2
      | none => .panic
    | .ok none => .ok p
  | .timestamp =>
    match PointValue.get_value decode_timestamp value with
    | .error e => .err e
    | .ok (some t) => .ok (p.set_timestamp t)
    | .ok none => .ok p
  | _ => .ok (p.set_field c.name value)

/-- The whole loop body of `get_point` for one column: extract the value;
a non-null `Utf8` column named `measurement` or `iox::measurement` sets the
measurement and skips classification (a null one falls through); otherwise
classify. -/
def stepCol (p : Point) (c : Col) (row : Nat) : RowResult :=
  match get_arrow_value c row with
  | .panic => .panic
  | .err e => .err e
  | .ok value =>
    if c.data.isUtf8 &&
        (decide (c.name = "measurement") || decide (c.name = "iox::measurement")) then
      match PointValue.get_value decode_string value with
      | .error e => .err e
      | .ok (some v) => .ok (p.set_measurement v)
      | .ok none => stepColClassified p c value
    else
      stepColClassified p c value

def get_point_go (cols : List Col) (row : Nat) (p : Point) : RowResult :=
  match cols with
  | [] => .ok p
  | c :: rest =>
    match stepCol p c row with
    | .ok p2 => get_point_go rest row p2
    | r => r

/-- `get_point`: run every column over `Point::default()`. -/
def get_point (cols : List Col) (row : Nat) : RowResult :=
  get_point_go cols row Point.default

theorem stepCol_tag_null (p : Point) (name : String) (cells : List (Option String))
    (row : Nat) (hnull : cells.getD row none = none) :
    stepCol p ⟨name, some "iox::column_type::tag", .utf8 cells⟩ row = .ok p := by
  have hval : get_arrow_value ⟨name, some "iox::column_type::tag", .utf8 cells⟩ row =
      .ok .null := by
    simp only [get_arrow_value, hnull]
  have hclass : stepColClassified p ⟨name, some "iox::column_type::tag", .utf8 cells⟩
      PointValue.null = .ok p := rfl
  simp only [stepCol, hval]
  by_cases hn : ((ColData.utf8 cells).isUtf8 &&
      (decide (name = "measurement") || decide (name = "iox::measurement"))) = true
  · rw [if_pos hn]
    exact hclass
  · rw [if_neg hn]
    exact hclass

theorem stepCol_tag_some (p : Point) (name : String) (cells : List (Option String))
    (row : Nat) (s : String) (hsome : cells.getD row none = some s)
    (hv : validate_name name = true)
    (hm1 : ¬(name = "measurement")) (hm2 : ¬(name = "iox::measurement")) :
    stepCol p ⟨name, some "iox::column_type::tag", .utf8 cells⟩ row =
      .ok { p with tags := insertAssoc p.tags name s } := by
  have hval : get_arrow_value ⟨name, some "iox::column_type::tag", .utf8 cells⟩ row =
      .ok (.string s) := by
    simp only [get_arrow_value, hsome]
  simp only [stepCol, hval]
  rw [if_neg (by simp [hm1, hm2])]
  show stepColClassified p ⟨name, some "iox::column_type::tag", .utf8 cells⟩
      (.string s) = _
  have htf : TagName.tryFrom name = .ok ⟨name⟩ := by
    simp [TagName.tryFrom, hv]
  simp only [stepColClassified, Point.set_tag, htf]
  rfl

theorem stepCol_field_class (p : Point) (c : Col) (row : Nat) (value : PointValue)
    (hval : get_arrow_value c row = .ok value)
    (hclass : (ColumnType.fromStr ((c.meta).getD "")).isFieldClass = true)
    (hres : (c.data.isUtf8 &&
      (decide (c.name = "measurement") || decide (c.name = "iox::measurement"))) = false)
    (hv : validate_name c.name = true) :
    stepCol p c row = .ok { p with fields := insertAssoc p.fields c.name value } := by
  simp only [stepCol, hval, hres, Bool.false_eq_true, if_false]
  rcases hct : ColumnType.fromStr ((c.meta).getD "") with _ | _ | _ | _ | _ | _ | _ | _ <;>
    rw [hct] at hclass <;>
    first
      | exact absurd hclass (by decide)
      | simp only [stepColClassified, hct, Point.set_field, if_pos hv]

theorem stepCol_unknown_field (p : Point) (c : Col) (row : Nat) (value : PointValue)
    (hval : get_arrow_value c row = .ok value)
    (hclass : ColumnType.fromStr ((c.meta).getD "") = ColumnType.unknown)
    (hts : (c.data.isTimestampType && decide (c.name = "time")) = false)
    (hres : (c.data.isUtf8 &&
      (decide (c.name = "measurement") || decide (c.name = "iox::measurement"))) = false)
    (hv : validate_name c.name = true) :
    stepCol p c row = .ok { p with fields := insertAssoc p.fields c.name value } := by
  simp only [stepCol, hval, hres, Bool.false_eq_true, if_false]
  simp only [stepColClassified, hclass, hts, Bool.false_eq_true, if_false,
    Point.set_field, hv, if_true, if_pos hv]

theorem stepCol_timestamp_class (p : Point) (name : String) (u : ArrowTimeUnit)
    (cells : List (Option Int)) (row : Nat) :
    (cells.getD row none = none →
      stepCol p ⟨name, some "iox::column_type::timestamp", .timestamp u cells⟩ row =
        .ok p) ∧
    (∀ n d, cells.getD row none = some n → dtFromArrow u n = some d →
      stepCol p ⟨name, some "iox::column_type::timestamp", .timestamp u cells⟩ row =
        .ok { p with time := d }) := by
  constructor
  · intro hnull
    have hval : get_arrow_value
        ⟨name, some "iox::column_type::timestamp", .timestamp u cells⟩ row =
        .ok .null := by
      simp only [get_arrow_value, hnull]
    simp only [stepCol, hval]
    rw [if_neg (by simp [ColData.isUtf8])]
    rfl
  · intro n d hsome hd
    have hval : get_arrow_value
        ⟨name, some "iox::column_type::timestamp", .timestamp u cells⟩ row =
        .ok (.timestamp d) := by
      simp only [get_arrow_value, hsome, hd]
    simp only [stepCol, hval]
    rw [if_neg (by simp [ColData.isUtf8])]
    rfl

theorem stepCol_unknown_time (p : Point) (meta : Option String) (u : ArrowTimeUnit)
    (cells : List (Option Int)) (row : Nat)
    (hclass : ColumnType.fromStr (meta.getD "") = ColumnType.unknown) :
    (cells.getD row none = none →
      stepCol p ⟨"time", meta, .timestamp u cells⟩ row = .ok p) ∧
    (∀ n d, cells.getD row none = some n → dtFromArrow u n = some d →
      stepCol p ⟨"time", meta, .timestamp u cells⟩ row =
        .ok { p with time := d }) := by
  constructor
  · intro hnull
    have hval : get_arrow_value ⟨"time", meta, .timestamp u cells⟩ row = .ok .null := by
      simp only [get_arrow_value, hnull]
    simp only [stepCol, hval]
    rw [if_neg (by simp [ColData.isUtf8])]
    show stepColClassified p ⟨"time", meta, .timestamp u cells⟩ .null = _
    simp only [stepColClassified, hclass]
    rw [if_pos (by simp [ColData.isTimestampType])]
    rfl
  · intro n d hsome hd
    have hval : get_arrow_value ⟨"time", meta, .timestamp u cells⟩ row =
        .ok (.timestamp d) := by
      simp only [get_arrow_value, hsome, hd]
    simp only [stepCol, hval]
    rw [if_neg (by simp [ColData.isUtf8])]
    show stepColClassified p ⟨"time", meta, .timestamp u cells⟩
        (.timestamp d) = _
    simp only [stepColClassified, hclass]
    rw [if_pos (by simp [ColData.isTimestampType])]
    rfl

/-- Counterexample to C6 as stated: a float-field-classified column whose
name `a b` fails the name validator, with a non-null cell, does not become a
field — `set_field` silently drops it and row decoding returns the point
unchanged, where the claim requires every field-classified column to become a
field keyed by the column name. -/
theorem claim_C6_counterexample :
    get_point [⟨"a b", some "iox::column_type::field::float", .float64 [some 1]⟩] 0 =
      .ok Point.default ∧ Point.default.fields = [] := ⟨rfl, rfl⟩

/-- Claim C6 amended: per-column row decoding behaves as claimed, with two
provisos forced by the setters it calls: the column name must pass the name
validator for a field to be stored (`set_field` silently drops invalid
names), and a `Utf8` column named `measurement` or `iox::measurement` is
consumed by the measurement special case instead.  With those provisos: a
tag-classified column sets a tag exactly when its cell is non-null (a null
tag cell leaves the point unchanged — never an empty tag); field-classified
and unknown-classified non-timestamp columns whose value extraction succeeds
(the `UInt64` arm always panics on its impossible downcast and is thereby
excluded) become fields keyed by column name, preserving an explicit `Null`
when the cell is null (the extracted value, `Null` included, is what is
stored); and a timestamp-classified column, or an unknown-classified
timestamp-typed column named `time`, sets the point's time when the cell is
non-null and the chrono conversion succeeds (out-of-range cells panic
through `expect` and are excluded) and never appears among the fields. -/
theorem claim_C6_row_decoding :
    (∀ (p : Point) (name : String) (cells : List (Option String)) (row : Nat),
      cells.getD row none = none →
      stepCol p ⟨name, some "iox::column_type::tag", .utf8 cells⟩ row = .ok p) ∧
    (∀ (p : Point) (name : String) (cells : List (Option String)) (row : Nat)
      (s : String),
      cells.getD row none = some s → validate_name name = true →
      ¬(name = "measurement") → ¬(name = "iox::measurement") →
      stepCol p ⟨name, some "iox::column_type::tag", .utf8 cells⟩ row =
        .ok { p with tags := insertAssoc p.tags name s }) ∧
    (∀ (p : Point) (c : Col) (row : Nat) (value : PointValue),
      get_arrow_value c row = .ok value →
      (ColumnType.fromStr ((c.meta).getD "")).isFieldClass = true →
      (c.data.isUtf8 && (decide (c.name = "measurement") ||
        decide (c.name = "iox::measurement"))) = false →
      validate_name c.name = true →
      stepCol p c row = .ok { p with fields := insertAssoc p.fields c.name value }) ∧
    (∀ (p : Point) (c : Col) (row : Nat) (value : PointValue),
      get_arrow_value c row = .ok value →
      ColumnType.fromStr ((c.meta).getD "") = ColumnType.unknown →
      (c.data.isTimestampType && decide (c.name = "time")) = false →
      (c.data.isUtf8 && (decide (c.name = "measurement") ||
        decide (c.name = "iox::measurement"))) = false →
      validate_name c.name = true →
      stepCol p c row = .ok { p with fields := insertAssoc p.fields c.name value }) ∧
    (∀ (p : Point) (name : String) (u : ArrowTimeUnit) (cells : List (Option Int))
      (row : Nat),
      (cells.getD row none = none →
        stepCol p ⟨name, some "iox::column_type::timestamp", .timestamp u cells⟩ row =
          .ok p) ∧
      (∀ n d, cells.getD row none = some n → dtFromArrow u n = some d →
        stepCol p ⟨name, some "iox::column_type::timestamp", .timestamp u cells⟩ row =
          .ok { p with time := d })) ∧
    (∀ (p : Point) (meta : Option String) (u : ArrowTimeUnit) (cells : List (Option Int))
      (row : Nat),
      ColumnType.fromStr (meta.getD "") = ColumnType.unknown →
      (cells.getD row none = none →
        stepCol p ⟨"time", meta, .timestamp u cells⟩ row = .ok p) ∧
      (∀ n d, cells.getD row none = some n → dtFromArrow u n = some d →
        stepCol p ⟨"time", meta, .timestamp u cells⟩ row =
          .ok { p with time := d })) :=
  ⟨stepCol_tag_null, stepCol_tag_some, stepCol_field_class, stepCol_unknown_field,
    stepCol_timestamp_class, stepCol_unknown_time⟩

/-- Witness for the amended C6: a tag-classified `host` column with a
non-null cell sets the tag on a concrete point. -/
theorem claim_C6_row_decoding_witness :
    stepCol Point.default ⟨"host", some "iox::column_type::tag", .utf8 [some "a"]⟩ 0 =
      .ok { Point.default with tags := insertAssoc Point.default.tags "host" "a" } :=
  claim_C6_row_decoding.2.1 Point.default "host" [some "a"] 0 "a" rfl (by decide)
    (by decide) (by decide)

/-! ### The point stream state machine (`point_stream.rs`) -/

/-- A record batch: its columns and the row count `num_rows()` the stream
reads. -/
structure Batch where
  cols : List Col
  nrows : Nat
deriving DecidableEq

/-- `PointStream`'s state: the remaining upstream items (a flight error or a
batch, in arrival order — the model of the inner `FlightRecordBatchStream`),
the buffered batch, the row cursor `i`, and the stored row count `len`. -/
structure PSState where
  upstream : List (Except InfluxDBError Batch)
  batch_buffer : Option Batch
  i : Nat
  len : Nat

/-- `PointStream::new`. -/
def PSState.new (upstream : List (Except InfluxDBError Batch)) : PSState :=
  ⟨upstream, none, 0, 0⟩

inductive PollOut where
  | item (r : RowResult)
  | finished

/-- The pull phase of `poll_next`'s loop, entered with no buffered batch and
cursor/count `i`/`len` carried over unchanged (the code does not reset them
when it loads a batch): an upstream error is emitted as an error item (the
`?` on the polled batch); a batch is buffered with `len` set to its row
count, and the loop re-enters the drain check — emitting row `i` if `i` is
below the count and otherwise dropping the batch, resetting, and pulling
again; an exhausted upstream ends the stream. -/
def pollAwait (i len : Nat) : List (Except InfluxDBError Batch) → PSState × PollOut
  | [] => (⟨[], none, i, len⟩, .finished)
  | .error e :: rest => (⟨rest, none, i, len⟩, .item (.err e))
  | .ok b :: rest =>
    if i < b.nrows then
      (⟨rest, some b, i + 1, b.nrows⟩, .item (get_point b.cols i))
    else
      pollAwait 0 0 rest

/-- `poll_next`: while a batch is buffered and the cursor is below the count,
emit `get_point` for the cursor row (decoded point or row error alike) and
advance the cursor by one; at the end of the batch drop the buffer, reset
cursor and count, and fall into the pull phase.  The model's upstream is
always ready; a `Pending` suspension leaves the state exactly as this
function's pull phase left it. -/
def PSState.poll (s : PSState) : PSState × PollOut :=
  match s.batch_buffer with
  | some b =>
    if s.i < s.len then
      ({ s with i := s.i + 1 }, .item (get_point b.cols s.i))
    else
      pollAwait 0 0 s.upstream
  | none => pollAwait s.i s.len s.upstream

/-- The state invariant C10 claims: the cursor never exceeds the stored row
count; with no buffered batch both the cursor and the count are zero; with a
buffered batch the count is its row count. -/
def PSInv (s : PSState) : Prop :=
  s.i ≤ s.len ∧
  (s.batch_buffer = none → s.i = 0 ∧ s.len = 0) ∧
  (∀ b, s.batch_buffer = some b → s.len = b.nrows)

/-- States of the stream reachable from a fresh stream by poll transitions. -/
inductive Reachable : PSState → Prop where
  | init : ∀ up, Reachable (PSState.new up)
  | step : ∀ s, Reachable s → Reachable (PSState.poll s).1

theorem poll_drain (s : PSState) (b : Batch) (hb : s.batch_buffer = some b)
    (hlt : s.i < s.len) :
    PSState.poll s = ({ s with i := s.i + 1 }, .item (get_point b.cols s.i)) := by
  simp only [PSState.poll, hb, if_pos hlt]

theorem pollAwait_inv (up : List (Except InfluxDBError Batch)) :
    PSInv (pollAwait 0 0 up).1 := by
  induction up with
  | nil => exact ⟨Nat.le_refl 0, fun _ => ⟨rfl, rfl⟩, fun b hb => by cases hb⟩
  | cons x rest ih =>
    cases x with
    | error e => exact ⟨Nat.le_refl 0, fun _ => ⟨rfl, rfl⟩, fun b hb => by cases hb⟩
    | ok b =>
      simp only [pollAwait]
      by_cases hlt : 0 < b.nrows
      · rw [if_pos hlt]
        refine ⟨hlt, ⟨?_, ?_⟩⟩
        · intro hn
          have hx : some b = none := hn
          cases hx
        · intro b2 hb2
          have hx : some b = some b2 := hb2
          injection hx with hx2
          subst hx2
          rfl
      · rw [if_neg hlt]
        exact ih

theorem poll_preserves (s : PSState) (hinv : PSInv s) : PSInv (PSState.poll s).1 := by
  obtain ⟨h1, h2, h3⟩ := hinv
  cases hb : s.batch_buffer with
  | some b =>
    by_cases hlt : s.i < s.len
    · rw [poll_drain s b hb hlt]
      refine ⟨hlt, ⟨?_, ?_⟩⟩
      · intro hn
        have hx : s.batch_buffer = none := hn
        rw [hb] at hx
        cases hx
      · intro b2 hb2
        have hx : s.batch_buffer = some b2 := hb2
        exact h3 b2 hx
    · simp only [PSState.poll, hb, if_neg hlt]
      exact pollAwait_inv s.upstream
  | none =>
    obtain ⟨hi0, hl0⟩ := h2 hb
    simp only [PSState.poll, hb, hi0, hl0]
    exact pollAwait_inv s.upstream

theorem reachable_inv (s : PSState) (hr : Reachable s) : PSInv s := by
  induction hr with
  | init up => exact ⟨Nat.le_refl 0, fun _ => ⟨rfl, rfl⟩, fun b hb => by cases hb⟩
  | step s2 _ ih => exact poll_preserves s2 ih

/-- Claim C10: in every state reachable from a fresh stream by poll
transitions, the row cursor is at most the stored row count; whenever no
batch is buffered both the cursor and the count are zero; and with a batch
buffered and rows remaining, polling emits exactly the decoding of the
cursor row — a point or a per-row error alike — and advances the cursor by
exactly one, so a row error never stalls the stream: the next poll proceeds
to the next row or the next batch. -/
theorem claim_C10_stream_invariant (s : PSState) (hr : Reachable s) :
    s.i ≤ s.len ∧
    (s.batch_buffer = none → s.i = 0 ∧ s.len = 0) ∧
    (∀ b, s.batch_buffer = some b →
      s.len = b.nrows ∧
      (s.i < s.len →
        PSState.poll s = ({ s with i := s.i + 1 }, .item (get_point b.cols s.i)))) := by
  obtain ⟨h1, h2, h3⟩ := reachable_inv s hr
  exact ⟨h1, h2, fun b hb => ⟨h3 b hb, fun hlt => poll_drain s b hb hlt⟩⟩

/-- Witness for C10 at the state reached by one poll of a fresh stream over a
single two-row batch: the first row has been emitted and the cursor is 1. -/
theorem claim_C10_stream_invariant_witness :
    ((PSState.poll (PSState.new [Except.ok (⟨[], 2⟩ : Batch)])).1).i ≤
      ((PSState.poll (PSState.new [Except.ok (⟨[], 2⟩ : Batch)])).1).len ∧
    (((PSState.poll (PSState.new [Except.ok (⟨[], 2⟩ : Batch)])).1).batch_buffer = none →
      ((PSState.poll (PSState.new [Except.ok (⟨[], 2⟩ : Batch)])).1).i = 0 ∧
      ((PSState.poll (PSState.new [Except.ok (⟨[], 2⟩ : Batch)])).1).len = 0) ∧
    (∀ b, ((PSState.poll (PSState.new [Except.ok (⟨[], 2⟩ : Batch)])).1).batch_buffer =
        some b →
      ((PSState.poll (PSState.new [Except.ok (⟨[], 2⟩ : Batch)])).1).len = b.nrows ∧
      (((PSState.poll (PSState.new [Except.ok (⟨[], 2⟩ : Batch)])).1).i <
          ((PSState.poll (PSState.new [Except.ok (⟨[], 2⟩ : Batch)])).1).len →
        PSState.poll ((PSState.poll (PSState.new [Except.ok (⟨[], 2⟩ : Batch)])).1) =
          ({ (PSState.poll (PSState.new [Except.ok (⟨[], 2⟩ : Batch)])).1 with
              i := ((PSState.poll (PSState.new [Except.ok (⟨[], 2⟩ : Batch)])).1).i + 1 },
            .item (get_point b.cols
              ((PSState.poll (PSState.new [Except.ok (⟨[], 2⟩ : Batch)])).1).i)))) :=
  claim_C10_stream_invariant _
    (Reachable.step _ (Reachable.init [Except.ok (⟨[], 2⟩ : Batch)]))

end Influx
